import Mathlib

/-!
Verification of the retrieval-decision and synthesis pipeline of pubmed-cli.

Go strings are modelled as lists of bytes (`GoStr := List Nat`), so that
byte-indexed slicing (`q[:150]`) and UTF-8 decoding (`[]rune(s)`) can be
expressed faithfully.  Machine integers are modelled as `Nat`/`Int`.
Fallible or panicking code returns `Option`/`Except`.
-/

set_option maxHeartbeats 1000000
set_option maxRecDepth 10000

namespace PubmedCLI

/-- Byte string: the model of a Go `string` (a sequence of bytes). -/
abbrev GoStr := List Nat

/-- Length of a Go string in bytes (Go `len(s)`). -/
def GoStr.blen (s : GoStr) : Nat := List.length s

/-- Unicode replacement character U+FFFD, produced for invalid UTF-8. -/
def runeError : Nat := 0xFFFD

/-- A Unicode code point is a valid scalar value: below 0x110000 and not a
surrogate. -/
def validScalar (c : Nat) : Prop := c < 0x110000 ∧ ¬(0xD800 ≤ c ∧ c ≤ 0xDFFF)

instance (c : Nat) : Decidable (validScalar c) := by
  unfold validScalar
  infer_instance

/-- UTF-8 encoding of one valid scalar value (Go `utf8.AppendRune` for valid
runes). -/
def utf8EncodeScalar (c : Nat) : List Nat :=
  if c < 0x80 then [c]
  else if c < 0x800 then [0xC0 + c / 64, 0x80 + c % 64]
  else if c < 0x10000 then [0xE0 + c / 4096, 0x80 + (c / 64) % 64, 0x80 + c % 64]
  else [0xF0 + c / 0x40000, 0x80 + (c / 4096) % 64, 0x80 + (c / 64) % 64, 0x80 + c % 64]

/-- Go `string(r)` encoding of one rune: invalid scalars become U+FFFD. -/
def runeBytes (c : Nat) : List Nat :=
  if validScalar c then utf8EncodeScalar c else utf8EncodeScalar runeError

/-- UTF-8 encoding of a list of runes (Go `string([]rune)`). -/
def utf8Encode (cs : List Nat) : GoStr := cs.flatMap runeBytes

/-- Is a byte a UTF-8 continuation byte in the given inclusive range? -/
def contByteIn (lo hi b : Nat) : Prop := lo ≤ b ∧ b ≤ hi

instance (lo hi b : Nat) : Decidable (contByteIn lo hi b) := by
  unfold contByteIn
  infer_instance

/-- Core of `decodeMulti` over the (up to three) continuation bytes; a missing
byte is passed as 0, which fails every continuation-byte range check, exactly
as Go's explicit length checks would. -/
def decodeBytes (b0 b1 b2 b3 : Nat) : Option (Nat × Nat) :=
  if 0xC2 ≤ b0 ∧ b0 ≤ 0xDF then
    if contByteIn 0x80 0xBF b1 then some ((b0 - 0xC0) * 64 + (b1 - 0x80), 1) else none
  else if 0xE0 ≤ b0 ∧ b0 ≤ 0xEF then
    if (if b0 = 0xE0 then contByteIn 0xA0 0xBF b1
        else if b0 = 0xED then contByteIn 0x80 0x9F b1
        else contByteIn 0x80 0xBF b1) ∧ contByteIn 0x80 0xBF b2 then
      some ((b0 - 0xE0) * 4096 + (b1 - 0x80) * 64 + (b2 - 0x80), 2)
    else none
  else if 0xF0 ≤ b0 ∧ b0 ≤ 0xF4 then
    if (if b0 = 0xF0 then contByteIn 0x90 0xBF b1
        else if b0 = 0xF4 then contByteIn 0x80 0x8F b1
        else contByteIn 0x80 0xBF b1) ∧ contByteIn 0x80 0xBF b2 ∧
        contByteIn 0x80 0xBF b3 then
      some ((b0 - 0xF0) * 0x40000 + (b1 - 0x80) * 4096 + (b2 - 0x80) * 64 + (b3 - 0x80), 3)
    else none
  else none

/-- Decode one multi-byte UTF-8 sequence starting with lead byte `b0` followed
by `rest`; returns the code point and the number of continuation bytes
consumed, or `none` on any invalid sequence (Go `utf8.DecodeRune`, which
accepts exactly the shortest-form, non-surrogate encodings). -/
def decodeMulti (b0 : Nat) (rest : List Nat) : Option (Nat × Nat) :=
  decodeBytes b0 (rest.getD 0 0) (rest.getD 1 0) (rest.getD 2 0)

/-- Fuel-indexed UTF-8 decoding loop; the fuel is only a structural-recursion
device and is irrelevant once it is at least the byte length. -/
def utf8DecodeAux : Nat → GoStr → List Nat
  | 0, _ => []
  | _, [] => []
  | fuel + 1, b0 :: rest =>
    if b0 < 0x80 then b0 :: utf8DecodeAux fuel rest
    else
      match decodeMulti b0 rest with
      | some (cp, k) => cp :: utf8DecodeAux fuel (rest.drop k)
      | none => runeError :: utf8DecodeAux fuel rest

/-- UTF-8 decoding of a byte string into runes (Go `[]rune(s)`): each invalid
byte yields one U+FFFD. -/
def utf8Decode (s : GoStr) : List Nat := utf8DecodeAux (List.length s) s

/-- The decoding loop does not depend on the fuel once it covers the input. -/
theorem utf8DecodeAux_fuel2 (f1 : Nat) : ∀ (f2 : Nat) (s : GoStr),
    List.length s ≤ f1 → List.length s ≤ f2 →
    utf8DecodeAux f1 s = utf8DecodeAux f2 s := by
  induction f1 with
  | zero =>
    intro f2 s h1 h2
    match s with
    | [] =>
      match f2 with
      | 0 => rfl
      | m2 + 1 => rfl
    | b :: rest => exact absurd h1 (by simp)
  | succ m ih =>
    intro f2 s h1 h2
    match s with
    | [] =>
      match f2 with
      | 0 => rfl
      | m2 + 1 => rfl
    | b0 :: rest =>
      match f2 with
      | 0 => exact absurd h2 (by simp)
      | m2 + 1 =>
        simp only [List.length_cons] at h1 h2
        show utf8DecodeAux (m + 1) (b0 :: rest) = utf8DecodeAux (m2 + 1) (b0 :: rest)
        unfold utf8DecodeAux
        by_cases hb : b0 < 0x80
        · rw [if_pos hb, if_pos hb, ih m2 rest (by omega) (by omega)]
        · rw [if_neg hb, if_neg hb]
          rcases hdm : decodeMulti b0 rest with _ | ⟨cp, k⟩
          · simp only [hdm]
            rw [ih m2 rest (by omega) (by omega)]
          · simp only [hdm]
            have hlen : (rest.drop k).length ≤ rest.length := by
              rw [List.length_drop]; omega
            rw [ih m2 (rest.drop k) (by omega) (by omega)]

/-- Any sufficient fuel computes `utf8Decode`. -/
theorem utf8DecodeAux_fuel (fuel : Nat) (s : GoStr) (h : List.length s ≤ fuel) :
    utf8DecodeAux fuel s = utf8Decode s :=
  utf8DecodeAux_fuel2 fuel (List.length s) s h (le_refl _)

/-- Convert a Lean string literal to its Go byte-string model. -/
def strBytes (s : String) : GoStr := utf8Encode (s.data.map Char.toNat)

/-- The three bytes of the literal suffix attached by `truncate`. -/
def dotsBytes : GoStr := [46, 46, 46]

/-- The synth package truncator, translated from `truncate` in the synth
package: rune-safe truncation to `maxLen` runes, with a `"..."` suffix when
truncation occurred.  `maxLen` is a Go `int`, so it may be negative. -/
def truncate (s : GoStr) (maxLen : Int) : GoStr :=
  if maxLen ≤ 0 then []
  else if (List.length (utf8Decode s) : Int) ≤ maxLen then s
  else utf8Encode ((utf8Decode s).take maxLen.toNat) ++ dotsBytes

theorem utf8Decode_nil : utf8Decode [] = [] := rfl

theorem utf8Decode_cons (b0 : Nat) (rest : List Nat) :
    utf8Decode (b0 :: rest) =
      if b0 < 0x80 then b0 :: utf8Decode rest
      else
        match decodeMulti b0 rest with
        | some (cp, k) => cp :: utf8Decode (rest.drop k)
        | none => runeError :: utf8Decode rest := by
  show utf8DecodeAux (rest.length + 1) (b0 :: rest) = _
  unfold utf8DecodeAux
  by_cases hb : b0 < 0x80
  · rw [if_pos hb, if_pos hb]
    rfl
  · rw [if_neg hb, if_neg hb]
    rcases hdm : decodeMulti b0 rest with _ | ⟨cp, k⟩
    · simp only [hdm]
      rfl
    · simp only [hdm]
      rw [utf8DecodeAux_fuel rest.length (rest.drop k)
        (by rw [List.length_drop]; omega)]

/-- Every code point produced by `decodeBytes` is a valid scalar value. -/
theorem decodeBytes_validScalar (b0 b1 b2 b3 cp k : Nat)
    (h : decodeBytes b0 b1 b2 b3 = some (cp, k)) : validScalar cp := by
  unfold decodeBytes contByteIn at h
  have key : cp < 0x110000 ∧ ¬(0xD800 ≤ cp ∧ cp ≤ 0xDFFF) := by
    split_ifs at h <;>
      simp only [Option.some.injEq, Prod.mk.injEq, and_true, reduceCtorEq] at h <;>
      omega
  exact key

/-- Every code point produced by `decodeMulti` is a valid scalar value. -/
theorem decodeMulti_validScalar (b0 : Nat) (rest : List Nat) (cp k : Nat)
    (h : decodeMulti b0 rest = some (cp, k)) : validScalar cp :=
  decodeBytes_validScalar b0 (rest.getD 0 0) (rest.getD 1 0) (rest.getD 2 0) cp k h

/-- Every rune produced by UTF-8 decoding is a valid scalar value. -/
theorem utf8Decode_validScalar (s : GoStr) : ∀ c ∈ utf8Decode s, validScalar c := by
  have H : ∀ n (s : GoStr), List.length s ≤ n → ∀ c ∈ utf8Decode s, validScalar c := by
    intro n
    induction n with
    | zero =>
      intro s hs c hc
      match s with
      | [] => rw [utf8Decode_nil] at hc; exact absurd hc (by simp)
      | b :: rest => exact absurd hs (by simp)
    | succ m ih =>
      intro s hs c hc
      match s with
      | [] => rw [utf8Decode_nil] at hc; exact absurd hc (by simp)
      | b0 :: rest =>
        rw [utf8Decode_cons] at hc
        simp only [List.length_cons] at hs
        split at hc
        · rename_i hb0
          rcases List.mem_cons.mp hc with h | h
          · subst h; exact ⟨by omega, by omega⟩
          · exact ih rest (by omega) c h
        · rename_i hb0
          split at hc
          · rename_i cp k hdm
            rcases List.mem_cons.mp hc with h | h
            · subst h; exact decodeMulti_validScalar b0 rest c k hdm
            · exact ih (rest.drop k) (by rw [List.length_drop]; omega) c h
          · rcases List.mem_cons.mp hc with h | h
            · subst h; exact ⟨by norm_num [runeError], by norm_num [runeError]⟩
            · exact ih rest (by omega) c h
  exact H (List.length s) s (le_refl _)

/-- Decoding the encoding of one valid scalar, followed by anything, yields
that scalar followed by the decoding of the remainder. -/
theorem utf8Decode_runeBytes (c : Nat) (hc : validScalar c) (rest : GoStr) :
    utf8Decode (runeBytes c ++ rest) = c :: utf8Decode rest := by
  obtain ⟨hlt, hsur⟩ := hc
  rw [runeBytes, if_pos ⟨hlt, hsur⟩]
  unfold utf8EncodeScalar
  by_cases h1 : c < 0x80
  · rw [if_pos h1]
    show utf8Decode (c :: rest) = c :: utf8Decode rest
    rw [utf8Decode_cons, if_pos h1]
  · rw [if_neg h1]
    by_cases h2 : c < 0x800
    · rw [if_pos h2]
      show utf8Decode ((0xC0 + c / 64) :: (0x80 + c % 64) :: rest) = _
      rw [utf8Decode_cons, if_neg (by omega)]
      have hd : decodeMulti (0xC0 + c / 64) ((0x80 + c % 64) :: rest) =
          some (c, 1) := by
        show decodeBytes (0xC0 + c / 64) (0x80 + c % 64)
          (rest.getD 0 0) (rest.getD 1 0) = some (c, 1)
        unfold decodeBytes contByteIn
        rw [if_pos (by omega), if_pos (by omega)]
        simp only [Option.some.injEq, Prod.mk.injEq, and_true]
        omega
      rw [hd]
      rfl
    · rw [if_neg h2]
      by_cases h3 : c < 0x10000
      · rw [if_pos h3]
        show utf8Decode ((0xE0 + c / 4096) :: (0x80 + c / 64 % 64) ::
          (0x80 + c % 64) :: rest) = _
        rw [utf8Decode_cons, if_neg (by omega)]
        have hd : decodeMulti (0xE0 + c / 4096)
            ((0x80 + c / 64 % 64) :: (0x80 + c % 64) :: rest) = some (c, 2) := by
          show decodeBytes (0xE0 + c / 4096) (0x80 + c / 64 % 64) (0x80 + c % 64)
            (rest.getD 0 0) = some (c, 2)
          unfold decodeBytes contByteIn
          rw [if_neg (by omega), if_pos (by omega)]
          rw [if_pos ?hcond]
          case hcond =>
            refine ⟨?_, by omega⟩
            by_cases he : c / 4096 = 0
            · rw [if_pos (by omega)]
              omega
            · rw [if_neg (by omega)]
              by_cases hed : c / 4096 = 13
              · rw [if_pos (by omega)]
                omega
              · rw [if_neg (by omega)]
                omega
          simp only [Option.some.injEq, Prod.mk.injEq, and_true]
          omega
        rw [hd]
        rfl
      · rw [if_neg h3]
        show utf8Decode ((0xF0 + c / 0x40000) :: (0x80 + c / 4096 % 64) ::
          (0x80 + c / 64 % 64) :: (0x80 + c % 64) :: rest) = _
        rw [utf8Decode_cons, if_neg (by omega)]
        have hd : decodeMulti (0xF0 + c / 0x40000)
            ((0x80 + c / 4096 % 64) :: (0x80 + c / 64 % 64) ::
              (0x80 + c % 64) :: rest) = some (c, 3) := by
          show decodeBytes (0xF0 + c / 0x40000) (0x80 + c / 4096 % 64)
            (0x80 + c / 64 % 64) (0x80 + c % 64) = some (c, 3)
          unfold decodeBytes contByteIn
          rw [if_neg (by omega), if_neg (by omega), if_pos (by omega)]
          rw [if_pos ?hcond]
          case hcond =>
            refine ⟨?_, by omega, by omega⟩
            by_cases he : c / 0x40000 = 0
            · rw [if_pos (by omega)]
              omega
            · rw [if_neg (by omega)]
              by_cases hf4 : c / 0x40000 = 4
              · rw [if_pos (by omega)]
                omega
              · rw [if_neg (by omega)]
                omega
          simp only [Option.some.injEq, Prod.mk.injEq, and_true]
          omega
        rw [hd]
        rfl

/-- Decoding an encoded list of valid scalars followed by anything recovers
the scalars followed by the decoding of the remainder. -/
theorem utf8Decode_encode_append (cs : List Nat) (h : ∀ c ∈ cs, validScalar c)
    (rest : GoStr) : utf8Decode (utf8Encode cs ++ rest) = cs ++ utf8Decode rest := by
  induction cs with
  | nil => simp [utf8Encode]
  | cons c cs ih =>
    have hc : validScalar c := h c (by simp)
    have hcs : ∀ x ∈ cs, validScalar x := fun x hx => h x (by simp [hx])
    show utf8Decode ((runeBytes c ++ utf8Encode cs) ++ rest) = _
    rw [List.append_assoc, utf8Decode_runeBytes c hc (utf8Encode cs ++ rest), ih hcs]
    rfl

/-- C9: the synth truncator is idempotent: truncating an already-truncated
string with the same bound returns it unchanged, for every byte string `s`
and every `n ≥ 0`. -/
theorem truncate_idem (s : GoStr) (n : Int) (h : 0 ≤ n) :
    truncate (truncate s n) n = truncate s n := by
  by_cases h0 : n ≤ 0
  · unfold truncate
    rw [if_pos h0, if_pos h0]
  · unfold truncate
    rw [if_neg h0, if_neg h0]
    by_cases hlen : (List.length (utf8Decode s) : Int) ≤ n
    · rw [if_pos hlen, if_pos hlen]
    · rw [if_neg hlen]
      have hval : ∀ c ∈ (utf8Decode s).take n.toNat, validScalar c := fun c hc =>
        utf8Decode_validScalar s c (List.take_subset _ _ hc)
      have hdec : utf8Decode (utf8Encode ((utf8Decode s).take n.toNat) ++ dotsBytes)
          = (utf8Decode s).take n.toNat ++ [46, 46, 46] := by
        rw [utf8Decode_encode_append _ hval dotsBytes]
        rfl
      rw [hdec]
      have htk : ((utf8Decode s).take n.toNat).length = n.toNat := by
        rw [List.length_take]
        omega
      rw [if_neg (by
        rw [List.length_append, htk]
        simp only [List.length_cons, List.length_nil]
        omega)]
      rw [List.take_append_of_le_length (by omega),
        List.take_of_length_le (by omega)]

/-- Witness for C9 at a concrete input. -/
theorem truncate_idem_witness :
    (0 : Int) ≤ 5 ∧
      truncate (truncate (strBytes "hello world") 5) 5 =
        truncate (strBytes "hello world") 5 :=
  ⟨by decide, truncate_idem (strBytes "hello world") 5 (by decide)⟩

/-- Go `unicode.IsSpace`: the White_Space property. -/
def isSpaceRune (cp : Nat) : Bool :=
  cp == 9 || cp == 10 || cp == 11 || cp == 12 || cp == 13 || cp == 32 ||
  cp == 0x85 || cp == 0xA0 || cp == 0x1680 || (0x2000 ≤ cp && cp ≤ 0x200A) ||
  cp == 0x2028 || cp == 0x2029 || cp == 0x202F || cp == 0x205F || cp == 0x3000

/-- Go `utf8.DecodeRuneInString`: first rune and its byte size; `none` only on
the empty string. -/
def decodeOne : GoStr → Option (Nat × Nat)
  | [] => none
  | b :: rest =>
    if b < 0x80 then some (b, 1)
    else
      match decodeMulti b rest with
      | some (cp, k) => some (cp, k + 1)
      | none => some (runeError, 1)

/-- Go `utf8.RuneStart`: a byte that is not a continuation byte. -/
def runeStart (b : Nat) : Bool := !(0x80 ≤ b && b ≤ 0xBF)

/-- Scan from index `j` down to `lim` for the first byte that can start a
rune, as in the backward scan of Go `utf8.DecodeLastRuneInString`. -/
def scanStart (s : GoStr) (lim : Nat) : Nat → Option Nat
  | 0 => if 0 < lim then none else if runeStart (s.getD 0 0) then some 0 else none
  | j + 1 =>
    if j + 1 < lim then none
    else if runeStart (s.getD (j + 1) 0) then some (j + 1)
    else scanStart s lim j

/-- Go `utf8.DecodeLastRuneInString`: last rune of the string and its byte
size; `none` only on the empty string. -/
def decodeLastRune (s : GoStr) : Option (Nat × Nat) :=
  let e := s.length
  if e = 0 then none
  else
    let last := s.getD (e - 1) 0
    if last < 0x80 then some (last, 1)
    else
      let lim := e - 4
      let start :=
        match scanStart s lim (e - 2) with
        | some st => st
        | none => lim - 1
      match decodeOne (s.drop start) with
      | some (cp, size) =>
        if start + size ≠ e then some (runeError, 1) else some (cp, size)
      | none => some (runeError, 1)

/-- Trim leading White_Space runes (fuel-indexed loop). -/
def trimLeftAux : Nat → GoStr → GoStr
  | 0, s => s
  | fuel + 1, s =>
    match decodeOne s with
    | some (cp, size) =>
      if isSpaceRune cp then trimLeftAux fuel (s.drop size) else s
    | none => s

/-- Trim trailing White_Space runes (fuel-indexed loop). -/
def trimRightAux : Nat → GoStr → GoStr
  | 0, s => s
  | fuel + 1, s =>
    match decodeLastRune s with
    | some (cp, size) =>
      if isSpaceRune cp then trimRightAux fuel (s.take (s.length - size)) else s
    | none => s

/-- Go `strings.TrimSpace`: drop leading and trailing White_Space runes. -/
def trimSpace (s : GoStr) : GoStr :=
  trimRightAux s.length (trimLeftAux s.length s)

/-- Is a byte an ASCII word byte (`[0-9A-Za-z_]`), the class used by the
regexp word boundary `\b`? -/
def wordByte (b : Nat) : Bool :=
  (48 ≤ b && b ≤ 57) || (65 ≤ b && b ≤ 90) || (97 ≤ b && b ≤ 122) || b == 95

/-- Is position `i` of `s` occupied by a word byte? Out of range counts as
non-word. -/
def wordAt (s : GoStr) (i : Nat) : Bool :=
  if h : i < s.length then wordByte (s.get ⟨i, h⟩) else false

/-- Word boundary of the regexp engine before position `i` (between bytes
`i - 1` and `i`); position 0 is a boundary iff the first byte is a word byte. -/
def boundaryAt (s : GoStr) (i : Nat) : Bool :=
  if i = 0 then wordAt s 0 else wordAt s (i - 1) != wordAt s i

/-- Match of the regexp `\b(10|[1-9])\b` at position `i` of `s`, with the
alternation preferring `10`, as Go's leftmost-first matching does; returns the
numeric value of the matched token. -/
def scoreMatchAt (s : GoStr) (i : Nat) : Option Nat :=
  if boundaryAt s i then
    if s.getD i 0 == 49 && s.getD (i + 1) 0 == 48 && boundaryAt s (i + 2) then
      some 10
    else if 49 ≤ s.getD i 0 && s.getD i 0 ≤ 57 && boundaryAt s (i + 1) then
      some (s.getD i 0 - 48)
    else none
  else none

/-- Value of the leftmost match of `scoreRe` (the regexp
`\b(10|[1-9])\b`) in `s`, or `none` when there is no match (Go
`scoreRe.FindString` followed by `strconv.Atoi`). -/
def findScore (s : GoStr) : Option Nat :=
  (List.range s.length).findSome? (scoreMatchAt s)

/-- The synth package score parser, translated from `parseScore`: trim the
response, take the first whole-word `10` or `1`-`9` token, check the `1..10`
range, and default to 5. -/
def parseScore (resp : GoStr) : Nat :=
  match findScore (trimSpace resp) with
  | some v => if 1 ≤ v ∧ v ≤ 10 then v else 5
  | none => 5

/-- C6: `parseScore` returns an integer in [1,10] for every input, picking the
first whole-word `10`-or-digit token and defaulting to 5 when no such token
exists; in particular the documented corner cases hold, including the
embedded-digit quirks on inputs such as "-3", "15" and "2 then 8". -/
theorem parseScore_spec :
    (∀ s : GoStr, 1 ≤ parseScore s ∧ parseScore s ≤ 10) ∧
    parseScore (strBytes "7") = 7 ∧
    parseScore (strBytes "Rating: 5/10") = 5 ∧
    parseScore (strBytes "-3") = 3 ∧
    parseScore (strBytes "15") = 5 ∧
    parseScore (strBytes "2 then 8") = 2 ∧
    parseScore (strBytes "") = 5 ∧
    parseScore (strBytes "   ") = 5 ∧
    parseScore (strBytes "high relevance") = 5 := by
  refine ⟨fun s => ?_, by decide, by decide, by decide, by decide, by decide,
    by decide, by decide, by decide⟩
  cases hf : findScore (trimSpace s) with
  | none =>
    simp only [parseScore, hf]
    omega
  | some v =>
    simp only [parseScore, hf]
    split_ifs with h
    · exact h
    · omega

/-! Go `sort.Slice` (the pdqsort of Go 1.19+), translated operation by
operation.  Both call sites in this repository sort descending by an integer
key (`RelevanceScore`, sentence score), so the whole development is
parameterised by a key function and the comparison
`less i j = key data[i] > key data[j]`.  Lists model the Go slice; the fuel
arguments are structural-recursion devices only, always called with enough
fuel for Go's loops. -/

section GoSortSlice

variable {α : Type} [Inhabited α]

/-- Read `data[i]` (indices are always in bounds in the Go code). -/
def aget (l : List α) (i : Nat) : α := l.getD i default

/-- Go `data.Swap(i, j)`. -/
def aswap (l : List α) (i j : Nat) : List α :=
  (l.set i (aget l j)).set j (aget l i)

/-- Go `data.Less(i, j)` for a sort that is descending by `key`. -/
def lessD (key : α → Nat) (l : List α) (i j : Nat) : Bool :=
  key (aget l j) < key (aget l i)

/-- Inner loop of Go `insertionSort_func`: shift the element at `j` left
while it is less than its predecessor and `j > a`. -/
def insInner (key : α → Nat) (a : Nat) : List α → Nat → List α
  | l, 0 => l
  | l, j + 1 =>
    if a < j + 1 ∧ lessD key l (j + 1) j then insInner key a (aswap l (j + 1) j) j
    else l

/-- Go `insertionSort_func(data, a, b)`. -/
def insertionSortGo (key : α → Nat) (l : List α) (a b : Nat) : List α :=
  (List.range' (a + 1) (b - (a + 1))).foldl (fun l i => insInner key a l i) l

/-- Go `siftDown_func` (fuel-indexed loop; the root only descends). -/
def siftDownGo (key : α → Nat) : Nat → List α → Nat → Nat → Nat → List α
  | 0, l, _, _, _ => l
  | fuel + 1, l, root, hi, first =>
    let child := 2 * root + 1
    if child ≥ hi then l
    else
      let child := if child + 1 < hi ∧ lessD key l (first + child) (first + child + 1)
        then child + 1 else child
      if ¬ lessD key l (first + root) (first + child) then l
      else siftDownGo key fuel (aswap l (first + root) (first + child)) child hi first

/-- Go `heapSort_func(data, a, b)`. -/
def heapSortGo (key : α → Nat) (l : List α) (a b : Nat) : List α :=
  let first := a
  let hi := b - a
  let built := (List.range ((hi - 1) / 2 + 1)).reverse.foldl
    (fun l i => siftDownGo key hi l i hi first) l
  (List.range hi).reverse.foldl
    (fun l i => siftDownGo key hi (aswap l first (first + i)) 0 i first) built

/-- Go `reverseRange_func` (fuel-indexed two-pointer swap loop). -/
def revRangeAux : Nat → List α → Nat → Nat → List α
  | 0, l, _, _ => l
  | fuel + 1, l, i, j => if i < j then revRangeAux fuel (aswap l i j) (i + 1) (j - 1) else l

/-- Go `reverseRange_func(data, a, b)`. -/
def reverseRangeGo (l : List α) (a b : Nat) : List α :=
  revRangeAux b l a (b - 1)

/-- Sortedness hint returned by Go `choosePivot_func`. -/
inductive Hint where
  | inc : Hint
  | dec : Hint
  | unk : Hint
deriving DecidableEq

/-- Go `order2_func`: order two indices by the data they point at, counting
swaps. -/
def order2Go (key : α → Nat) (l : List α) (a b sw : Nat) : Nat × Nat × Nat :=
  if lessD key l b a then (b, a, sw + 1) else (a, b, sw)

/-- Go `median_func`: index of the median of three, counting swaps. -/
def medianGo (key : α → Nat) (l : List α) (a b c sw : Nat) : Nat × Nat :=
  let (a1, b1, sw1) := order2Go key l a b sw
  let (b2, _, sw2) := order2Go key l b1 c sw1
  let (_, b3, sw3) := order2Go key l a1 b2 sw2
  (b3, sw3)

/-- Go `medianAdjacent_func`: median of `i-1, i, i+1`. -/
def medianAdjacentGo (key : α → Nat) (l : List α) (i sw : Nat) : Nat × Nat :=
  medianGo key l (i - 1) i (i + 1) sw

/-- Go `choosePivot_func(data, a, b)`. -/
def choosePivotGo (key : α → Nat) (l : List α) (a b : Nat) : Nat × Hint :=
  let len := b - a
  let i := a + len / 4 * 1
  let j := a + len / 4 * 2
  let k := a + len / 4 * 3
  if len ≥ 8 then
    if len ≥ 50 then
      let (i1, sw1) := medianAdjacentGo key l i 0
      let (j1, sw2) := medianAdjacentGo key l j sw1
      let (k1, sw3) := medianAdjacentGo key l k sw2
      let (j2, sw4) := medianGo key l i1 j1 k1 sw3
      if sw4 = 0 then (j2, Hint.inc)
      else if sw4 = 12 then (j2, Hint.dec)
      else (j2, Hint.unk)
    else
      let (j2, sw4) := medianGo key l i j k 0
      if sw4 = 0 then (j2, Hint.inc)
      else if sw4 = 12 then (j2, Hint.dec)
      else (j2, Hint.unk)
  else (j, Hint.inc)

/-- Advance of the scan pointer in Go `partialInsertionSort_func`: move `i`
right while the adjacent pair is in order. -/
def scanAdvance (key : α → Nat) (l : List α) (b : Nat) : Nat → Nat → Nat
  | 0, i => i
  | fuel + 1, i =>
    if i < b ∧ ¬ lessD key l i (i - 1) then scanAdvance key l b fuel (i + 1) else i

/-- Right shift of Go `partialInsertionSort_func`: move the greater element
right while it is greater than its successor. -/
def shiftRightGo (key : α → Nat) (b : Nat) : Nat → List α → Nat → List α
  | 0, l, _ => l
  | fuel + 1, l, j =>
    if j < b ∧ lessD key l j (j - 1) then shiftRightGo key b fuel (aswap l j (j - 1)) (j + 1)
    else l

/-- One `maxSteps` round of Go `partialInsertionSort_func`, keeping the scan
pointer; `steps` counts the remaining rounds (Go's `maxSteps = 5`). -/
def pInsertionAux (key : α → Nat) (a b : Nat) : Nat → List α → Nat → List α × Bool
  | 0, l, _ => (l, false)
  | steps + 1, l, i =>
    let i := scanAdvance key l b b i
    if i = b then (l, true)
    else if b - a < 50 then (l, false)
    else
      let l := aswap l i (i - 1)
      let l := if i - a ≥ 2 then insInner key 0 l (i - 1) else l
      let l := if b - i ≥ 2 then shiftRightGo key b b l (i + 1) else l
      pInsertionAux key a b steps l i

/-- Go `partialInsertionSort_func(data, a, b)`: partially sort, reporting
whether the range ended up sorted. -/
def pInsertionSortGo (key : α → Nat) (l : List α) (a b : Nat) : List α × Bool :=
  pInsertionAux key a b 5 l (a + 1)

/-- The `i` advance loop of Go `partition_func`: move right over elements
less than the pivot at `a`. -/
def partAdvance (key : α → Nat) (a : Nat) (l : List α) (j : Nat) : Nat → Nat → Nat
  | 0, i => i
  | fuel + 1, i =>
    if i ≤ j ∧ lessD key l i a then partAdvance key a l j fuel (i + 1) else i

/-- The `j` retreat loop of Go `partition_func`: move left over elements not
less than the pivot at `a`. -/
def partRetreat (key : α → Nat) (a : Nat) (l : List α) (i : Nat) : Nat → Nat → Nat
  | 0, j => j
  | fuel + 1, j =>
    if i ≤ j ∧ ¬ lessD key l j a then partRetreat key a l i fuel (j - 1) else j

/-- Main exchange loop of Go `partition_func`. -/
def partLoop (key : α → Nat) (a b : Nat) : Nat → List α → Nat → Nat → List α × Nat
  | 0, l, _, j => (l, j)
  | fuel + 1, l, i, j =>
    let i := partAdvance key a l j b i
    let j := partRetreat key a l i b j
    if i > j then (l, j)
    else partLoop key a b fuel (aswap l i j) (i + 1) (j - 1)

/-- Go `partition_func(data, a, b, pivot)`: returns the new pivot position,
whether the range was already partitioned, and the data. -/
def partitionGo (key : α → Nat) (l : List α) (a b pivot : Nat) :
    Nat × Bool × List α :=
  let l := aswap l a pivot
  let i := partAdvance key a l (b - 1) b (a + 1)
  let j := partRetreat key a l i b (b - 1)
  if i > j then (j, true, aswap l j a)
  else
    let (l, j) := partLoop key a b b (aswap l i j) (i + 1) (j - 1)
    (j, false, aswap l j a)

/-- The `i` advance loop of Go `partitionEqual_func`: move right over
elements not greater than the pivot at `a` (`!data.Less(a, i)`). -/
def partEqAdvance (key : α → Nat) (a : Nat) (l : List α) (j : Nat) : Nat → Nat → Nat
  | 0, i => i
  | fuel + 1, i =>
    if i ≤ j ∧ ¬ lessD key l a i then partEqAdvance key a l j fuel (i + 1) else i

/-- The `j` retreat loop of Go `partitionEqual_func`: move left over elements
greater than the pivot at `a` (`data.Less(a, j)`). -/
def partEqRetreat (key : α → Nat) (a : Nat) (l : List α) (i : Nat) : Nat → Nat → Nat
  | 0, j => j
  | fuel + 1, j =>
    if i ≤ j ∧ lessD key l a j then partEqRetreat key a l i fuel (j - 1) else j

/-- Exchange loop of Go `partitionEqual_func`. -/
def partEqLoop (key : α → Nat) (a b : Nat) : Nat → List α → Nat → Nat → List α × Nat
  | 0, l, i, _ => (l, i)
  | fuel + 1, l, i, j =>
    let i := partEqAdvance key a l j b i
    let j := partEqRetreat key a l i b j
    if i > j then (l, i)
    else partEqLoop key a b fuel (aswap l i j) (i + 1) (j - 1)

/-- Go `partitionEqual_func(data, a, b, pivot)`: move elements equal to the
pivot to the front, returning the first index past them. -/
def partitionEqualGo (key : α → Nat) (l : List α) (a b pivot : Nat) :
    Nat × List α :=
  let l := aswap l a pivot
  let (l, i) := partEqLoop key a b b l (a + 1) (b - 1)
  (i, l)

/-- Go `bits.Len`: number of bits needed to represent `n`. -/
def bitsLen (n : Nat) : Nat := if n = 0 then 0 else Nat.log2 n + 1

/-- Go `nextPowerOfTwo` from the sort package: `1 << bits.Len(uint(length))`. -/
def nextPowerOfTwo (length : Nat) : Nat := 2 ^ bitsLen length

/-- One step of the xorshift pseudo-random generator of Go's sort package,
on 64-bit words modelled as naturals below 2^64. -/
def xorshiftNext (r : Nat) : Nat :=
  let r1 := (r ^^^ (r * 2 ^ 13 % 2 ^ 64)) % 2 ^ 64
  let r2 := (r1 ^^^ (r1 / 2 ^ 7)) % 2 ^ 64
  (r2 ^^^ (r2 * 2 ^ 17 % 2 ^ 64)) % 2 ^ 64

/-- Go `breakPatterns_func(data, a, b)`: scramble three elements around the
quarter point using the xorshift generator seeded with the length. -/
def breakPatternsGo (l : List α) (a b : Nat) : List α :=
  let length := b - a
  if length ≥ 8 then
    let modulus := nextPowerOfTwo length
    let idx := a + length / 4 * 2 - 1
    let r1 := xorshiftNext (length % 2 ^ 64)
    let r2 := xorshiftNext r1
    let r3 := xorshiftNext r2
    let step := fun (l : List α) (i random : Nat) =>
      let other := random &&& (modulus - 1)
      let other := if other ≥ length then other - length else other
      aswap l (idx - 1 + i) (a + other)
    step (step (step l 0 r1) 1 r2) 2 r3
  else l

/-- The body of Go `pdqsort_func`: the outer `for` loop and the recursion are
both fuel-indexed (any fuel above the segment length is enough, since every
iteration and recursive call strictly shrinks `b - a`). -/
def pdqsortLoop (key : α → Nat) :
    Nat → List α → Nat → Nat → Nat → Bool → Bool → List α
  | 0, l, _, _, _, _, _ => l
  | fuel + 1, l, a, b, limit, wasBalanced, wasPartitioned =>
    let length := b - a
    if length ≤ 12 then insertionSortGo key l a b
    else if limit = 0 then heapSortGo key l a b
    else
      let (l, limit) :=
        if ¬ wasBalanced then (breakPatternsGo l a b, limit - 1) else (l, limit)
      let (pivot, hint) := choosePivotGo key l a b
      let (l, pivot, hint) :=
        if hint = Hint.dec then
          (reverseRangeGo l a b, (b - 1) - (pivot - a), Hint.inc)
        else (l, pivot, hint)
      let (l, stop) :=
        if wasBalanced ∧ wasPartitioned ∧ hint = Hint.inc then
          pInsertionSortGo key l a b
        else (l, false)
      if stop then l
      else
        if 0 < a ∧ ¬ lessD key l (a - 1) pivot then
          let (mid, l) := partitionEqualGo key l a b pivot
          pdqsortLoop key fuel l mid b limit wasBalanced wasPartitioned
        else
          let (mid, alreadyPartitioned, l) := partitionGo key l a b pivot
          let wasPartitioned := alreadyPartitioned
          let leftLen := mid - a
          let rightLen := b - mid
          let balanceThreshold := length / 8
          let wasBalanced := min leftLen rightLen ≥ balanceThreshold
          if leftLen < rightLen then
            let l := pdqsortLoop key fuel l a mid limit true true
            pdqsortLoop key fuel l (mid + 1) b limit wasBalanced wasPartitioned
          else
            let l := pdqsortLoop key fuel l (mid + 1) b limit true true
            pdqsortLoop key fuel l a mid limit wasBalanced wasPartitioned

/-- Go `sort.Slice(x, less)` with `less i j = key x[i] > key x[j]`: pdqsort
over the whole slice with `limit = bits.Len(uint(length))`. -/
def sortSliceByKeyDesc (key : α → Nat) (l : List α) : List α :=
  pdqsortLoop key (l.length + 1) l 0 l.length (bitsLen l.length) true true

end GoSortSlice

/-! The qa package: MinifyAbstract, ExpandQuery, DetectNovelty and the
adaptive answer engine. -/

/-- ASCII lowercasing of one byte.  Go `strings.ToLower` applies the Unicode
simple case mapping per rune; the byte-level model lowers the ASCII letters
and keeps all other bytes, which agrees with Go except on non-ASCII
uppercase letters. -/
def ascLower (b : Nat) : Nat := if 65 ≤ b ∧ b ≤ 90 then b + 32 else b

/-- Byte-level model of Go `strings.ToLower` (ASCII case mapping). -/
def toLowerAscii (s : GoStr) : GoStr := s.map ascLower

/-- Does `s` start with `pre` (Go `strings.HasPrefix`)? -/
def startsWithB : GoStr → GoStr → Bool
  | _, [] => true
  | [], _ :: _ => false
  | b :: s, c :: p => b == c && startsWithB s p

/-- Go `strings.Contains`. -/
def containsB (s sub : GoStr) : Bool :=
  (List.range (s.length + 1)).any (fun i => startsWithB (s.drop i) sub)

/-- A sentence-terminating byte of the regexp class `[.!?]`. -/
def isDotByte (b : Nat) : Bool := b == 46 || b == 33 || b == 63

/-- A byte of the regexp class `\s` (`[\t\n\f\r ]`). -/
def isSpcByte (b : Nat) : Bool := b == 9 || b == 10 || b == 12 || b == 13 || b == 32

/-- Split on the regexp `[.!?]+\s*` (fuel-indexed): each maximal run of
sentence terminators plus following whitespace is a separator (Go
`sentencePattern.Split(text, -1)`). -/
def splitSentAux : Nat → GoStr → List GoStr
  | 0, s => [s]
  | _ + 1, [] => [[]]
  | fuel + 1, b :: rest =>
    if isDotByte b then
      [] :: splitSentAux fuel ((rest.dropWhile isDotByte).dropWhile isSpcByte)
    else
      match splitSentAux fuel rest with
      | p :: ps => (b :: p) :: ps
      | [] => [[b]]

/-- Go `sentencePattern.Split(text, -1)`. -/
def splitSentences (s : GoStr) : List GoStr := splitSentAux (s.length + 1) s

/-- The fixed key-term vocabulary of `MinifyAbstract`. -/
def keyTerms : List GoStr :=
  [strBytes "conclusion", strBytes "result", strBytes "found", strBytes "showed",
   strBytes "demonstrated", strBytes "significant", strBytes "effective",
   strBytes "improved", strBytes "reduced", strBytes "increased",
   strBytes "associated", strBytes "compared", strBytes "outcome",
   strBytes "accuracy", strBytes "sensitivity", strBytes "specificity",
   strBytes "pooled", strBytes "meta-analysis"]

/-- Match of the anchored label regexp
`(?i)^(results?|conclusions?|findings?)\s*:` (ASCII case folding; Go would
additionally fold a few non-ASCII runes such as U+017F). -/
def labelMatch (s : GoStr) : Bool :=
  let ls := toLowerAscii s
  [strBytes "result", strBytes "conclusion", strBytes "finding"].any fun st =>
    startsWithB ls st &&
      (let r := ls.drop st.length
       (startsWithB r (strBytes "s") &&
         startsWithB ((r.drop 1).dropWhile isSpcByte) (strBytes ":")) ||
       startsWithB (r.dropWhile isSpcByte) (strBytes ":"))

/-- Is `b` an ASCII digit byte? -/
def digByte (b : Nat) : Bool := 48 ≤ b && b ≤ 57

/-- Match of the statistics regexp `\d+%|\d+\.\d+|95%\s*CI|p\s*[<=]`
at position `i` (stated as the equivalent existence condition: a digit run
followed by `%` exists iff some digit is directly followed by `%`, and
likewise for the decimal pattern). -/
def statAt (s : GoStr) (i : Nat) : Bool :=
  (digByte (s.getD i 0) && s.getD (i + 1) 0 == 37) ||
  (digByte (s.getD i 0) && s.getD (i + 1) 0 == 46 && digByte (s.getD (i + 2) 0)) ||
  (s.getD i 0 == 57 && s.getD (i + 1) 0 == 53 && s.getD (i + 2) 0 == 37 &&
    startsWithB ((s.drop (i + 3)).dropWhile isSpcByte) (strBytes "CI")) ||
  (s.getD i 0 == 112 &&
    (let r := (s.drop (i + 1)).dropWhile isSpcByte
     r.getD 0 0 == 60 || r.getD 0 0 == 61))

/-- Go `statPattern.MatchString(s)`. -/
def statMatch (s : GoStr) : Bool := (List.range s.length).any (statAt s)

/-- Score of one kept sentence in `MinifyAbstract`: +1 per key term contained
in the lowercased text, +3 for a label match, +2 for a statistics match. -/
def sentenceScore (s : GoStr) : Nat :=
  (keyTerms.filter (fun term => containsB (toLowerAscii s) term)).length +
    (if labelMatch s then 3 else 0) + (if statMatch s then 2 else 0)

/-- The trimmed sentences of length at least 20 paired with their scores, in
original order (the `scoredSentences` slice of `MinifyAbstract`). -/
def keptSentences (text : GoStr) : List (Nat × GoStr) :=
  (((splitSentences text).map trimSpace).filter (fun s => 20 ≤ s.length)).map
    (fun s => (sentenceScore s, s))

/-- The greedy accumulation loop of `MinifyAbstract`: take sentences while
the running total plus the next length stays within `maxChars`, counting a
2-byte joiner after each taken sentence. -/
def greedyTake (maxChars : Int) : List (Nat × GoStr) → Nat → List GoStr
  | [], _ => []
  | (_, t) :: rest, total =>
    if (total : Int) + t.length > maxChars then []
    else t :: greedyTake maxChars rest (total + t.length + 2)

/-- Go `strings.Join(result, ". ")`. -/
def joinDotSpace : List GoStr → GoStr
  | [] => []
  | [x] => x
  | x :: y :: xs => x ++ [46, 32] ++ joinDotSpace (y :: xs)

/-- The qa package abstract minifier, translated from `MinifyAbstract`:
sentence split, score, sort descending by score with Go `sort.Slice`,
greedily accumulate under `maxChars`, and fall back to a hard byte slice.
The hard fallback `text[:maxChars]` panics for negative `maxChars`, which the
model returns as `none`. -/
def MinifyAbstract (text : GoStr) (maxChars : Int) : Option GoStr :=
  if text = [] ∨ (text.length : Int) ≤ maxChars then some text
  else
    let sorted := sortSliceByKeyDesc Prod.fst (keptSentences text)
    let result := greedyTake maxChars sorted 0
    if result = [] then
      if (text.length : Int) > maxChars then
        if 0 ≤ maxChars then some (text.take maxChars.toNat) else none
      else some text
    else some (joinDotSpace result ++ [46])

/-- C7 counterexample: the claim quantifies over every `maxChars`, but for a
non-empty text and a negative budget the hard fallback `text[:maxChars]`
panics (modelled as `none`), so no string satisfying the bounds is returned. -/
theorem minify_negative_panics : MinifyAbstract (strBytes "x") (-1) = none := by
  decide

/-- The greedy loop keeps `total` plus the joined length within `maxChars`
whenever it takes at least one sentence. -/
theorem greedy_join_bound (mc : Int) : ∀ (lst : List (Nat × GoStr)) (total : Nat),
    greedyTake mc lst total ≠ [] →
    (total : Int) + ((joinDotSpace (greedyTake mc lst total)).length : Int) ≤ mc := by
  intro lst
  induction lst with
  | nil =>
    intro total h
    exact absurd rfl h
  | cons p rest ih =>
    intro total h
    obtain ⟨sc, t⟩ := p
    by_cases hc : (total : Int) + t.length > mc
    · rw [greedyTake, if_pos hc] at h
      exact absurd rfl h
    · rw [greedyTake, if_neg hc] at h ⊢
      rcases hrec : greedyTake mc rest (total + t.length + 2) with _ | ⟨y, ys⟩
      · show (total : Int) + ((joinDotSpace [t]).length : Int) ≤ mc
        simp only [joinDotSpace]
        omega
      · have hne : greedyTake mc rest (total + t.length + 2) ≠ [] := by
          rw [hrec]
          simp
        have hih := ih (total + t.length + 2) hne
        rw [hrec] at hih
        show (total : Int) +
          ((joinDotSpace (t :: y :: ys)).length : Int) ≤ mc
        have hjoin : (joinDotSpace (t :: y :: ys)).length =
            t.length + 2 + (joinDotSpace (y :: ys)).length := by
          show (t ++ [46, 32] ++ joinDotSpace (y :: ys)).length = _
          simp [List.length_append]
          omega
        rw [hjoin]
        push_cast at hih ⊢
        omega

/-- C7 (amended): for every text and every `maxChars ≥ 0`, `MinifyAbstract`
returns a string of length at most `maxChars + 3` and at most the length of
the input. -/
theorem minify_bounds (text : GoStr) (mc : Int) (h : 0 ≤ mc) :
    ∃ out, MinifyAbstract text mc = some out ∧
      (out.length : Int) ≤ mc + 3 ∧ out.length ≤ text.length := by
  unfold MinifyAbstract
  by_cases h1 : text = [] ∨ (text.length : Int) ≤ mc
  · rw [if_pos h1]
    refine ⟨text, rfl, ?_, le_refl _⟩
    rcases h1 with h1 | h1
    · subst h1
      simp only [List.length_nil]
      omega
    · omega
  · rw [if_neg h1]
    push_neg at h1
    obtain ⟨hne, hgt⟩ := h1
    by_cases hr : greedyTake mc (sortSliceByKeyDesc Prod.fst (keptSentences text)) 0 = []
    · rw [if_pos hr, if_pos (by omega), if_pos h]
      refine ⟨_, rfl, ?_, ?_⟩
      · rw [List.length_take]
        omega
      · rw [List.length_take]
        omega
    · rw [if_neg hr]
      refine ⟨_, rfl, ?_, ?_⟩
      · have := greedy_join_bound mc _ 0 hr
        simp only [List.length_append, List.length_cons, List.length_nil]
        push_cast at this ⊢
        omega
      · have := greedy_join_bound mc _ 0 hr
        simp only [List.length_append, List.length_cons, List.length_nil]
        push_cast at this
        omega

/-- Witness for C7 (amended) at a concrete abstract and budget. -/
theorem minify_bounds_witness :
    (0 : Int) ≤ 10 ∧
      ∃ out, MinifyAbstract (strBytes "this text is longer than the budget") 10 =
          some out ∧ (out.length : Int) ≤ 10 + 3 ∧
          out.length ≤ (strBytes "this text is longer than the budget").length :=
  ⟨by decide, minify_bounds (strBytes "this text is longer than the budget") 10 (by decide)⟩

/-- Remove the first occurrence of `old` from `s`
(Go `strings.Replace(s, old, "", 1)`). -/
def replaceOnce (s old : GoStr) : GoStr :=
  if old = [] then s
  else
    match (List.range (s.length + 1)).find? (fun i => startsWithB (s.drop i) old) with
    | some i => s.take i ++ s.drop (i + old.length)
    | none => s

/-- Go `strings.Fields` (fuel-indexed): split around runs of White_Space
runes. -/
def fieldsAux : Nat → GoStr → GoStr → List GoStr
  | 0, cur, _ => if cur = [] then [] else [cur]
  | _ + 1, cur, [] => if cur = [] then [] else [cur]
  | fuel + 1, cur, b :: rest =>
    match decodeOne (b :: rest) with
    | some (cp, size) =>
      if isSpaceRune cp then
        (if cur = [] then [] else [cur]) ++ fieldsAux fuel [] ((b :: rest).drop size)
      else fieldsAux fuel (cur ++ (b :: rest).take size) ((b :: rest).drop size)
    | none => if cur = [] then [] else [cur]

/-- Go `strings.Fields(s)`. -/
def fieldsB (s : GoStr) : List GoStr := fieldsAux (s.length + 1) [] s

/-- Go `strings.Join(fields, " ")`. -/
def joinSpaceB : List GoStr → GoStr
  | [] => []
  | [x] => x
  | x :: y :: xs => x ++ [32] ++ joinSpaceB (y :: xs)

/-- The preamble phrases stripped by `ExpandQuery`, in source order. -/
def preambles : List GoStr :=
  [strBytes "According to a 2025 meta-analysis,",
   strBytes "According to a 2025 systematic review,",
   strBytes "According to a 2025 RCT,",
   strBytes "According to a 2025 study,",
   strBytes "According to 2025 studies,",
   strBytes "Based on a 2025 meta-analysis,",
   strBytes "Based on a 2025 RCT,",
   strBytes "Based on 2025 evidence,",
   strBytes "Based on 2025 studies,",
   strBytes "According to a", strBytes "Based on a", strBytes "Based on"]

/-- The leading interrogative words stripped by `ExpandQuery`. -/
def questionWords : List GoStr :=
  [strBytes "does ", strBytes "Does ", strBytes "do ", strBytes "Do ",
   strBytes "is ", strBytes "Is ", strBytes "can ", strBytes "Can "]

/-- Go `strings.TrimSuffix(q, "?")`. -/
def trimSuffixQm (q : GoStr) : GoStr :=
  if q.getLast? = some 63 then q.take (q.length - 1) else q

/-- The qa package query cleaner, translated from `ExpandQuery`: strip
preambles (original and lowercased), trim, strip one leading interrogative
word, strip a trailing question mark, collapse whitespace, and cap at byte
index 150. -/
def ExpandQuery (question : GoStr) : GoStr :=
  let q := preambles.foldl
    (fun q p => replaceOnce (replaceOnce q p) (toLowerAscii p)) question
  let q := trimSpace q
  let q :=
    match questionWords.find? (fun w => startsWithB q w) with
    | some w => q.drop w.length
    | none => q
  let q := trimSuffixQm q
  let q := trimSpace (joinSpaceB (fieldsB q))
  if q.length > 150 then q.take 150 else q

/-- Go `utf8.ValidString` (fuel-indexed): every byte position starts a valid
shortest-form scalar encoding. -/
def validUTF8Aux : Nat → GoStr → Bool
  | 0, s => s.isEmpty
  | _ + 1, [] => true
  | fuel + 1, b :: rest =>
    if b < 0x80 then validUTF8Aux fuel rest
    else
      match decodeMulti b rest with
      | some (_, k) => validUTF8Aux fuel (rest.drop k)
      | none => false

/-- Go `utf8.ValidString(s)`. -/
def validUTF8 (s : GoStr) : Bool := validUTF8Aux (s.length + 1) s

/-- A valid question of 151 bytes: 149 ASCII letters followed by a two-byte
UTF-8 character straddling byte offset 150. -/
def straddleQuestion : GoStr := List.replicate 149 97 ++ [0xC3, 0xA9]

/-- C10: `ExpandQuery` caps queries at byte index 150, so its output is never
longer than 150 bytes; and because the slice counts bytes, the valid-UTF-8
question of 149 ASCII letters followed by a two-byte character is cut
mid-sequence, yielding output that is not valid UTF-8. -/
theorem expandQuery_cap_splits_utf8 :
    (∀ q : GoStr, (ExpandQuery q).length ≤ 150) ∧
    validUTF8 straddleQuestion = true ∧
    (ExpandQuery straddleQuestion).length = 150 ∧
    validUTF8 (ExpandQuery straddleQuestion) = false := by
  refine ⟨fun q => ?_, by decide, by decide, by decide⟩
  simp only [ExpandQuery]
  generalize trimSpace (joinSpaceB (fieldsB _)) = q5
  by_cases hlen : q5.length > 150
  · rw [if_pos hlen, List.length_take]
    omega
  · rw [if_neg hlen]
    omega

/-- Match of the year regexp `\b(202[4-9]|203\d)\b` at position `i`. -/
def yearAt (s : GoStr) (i : Nat) : Bool :=
  boundaryAt s i && s.getD i 0 == 50 && s.getD (i + 1) 0 == 48 &&
    ((s.getD (i + 2) 0 == 50 && 52 ≤ s.getD (i + 3) 0 && s.getD (i + 3) 0 ≤ 57) ||
     (s.getD (i + 2) 0 == 51 && digByte (s.getD (i + 3) 0))) &&
    boundaryAt s (i + 4)

/-- The fixed recency-keyword set of `DetectNovelty`. -/
def recencyTerms : List GoStr :=
  [strBytes "recent", strBytes "latest", strBytes "new study",
   strBytes "new research", strBytes "newly published", strBytes "this year",
   strBytes "last month", strBytes "just published"]

/-- The qa novelty detector, translated from `DetectNovelty`: a recent-year
token anywhere in the question, or a recency keyword in the lowercased
question. -/
def DetectNovelty (question : GoStr) : Bool :=
  (List.range question.length).any (yearAt question) ||
    recencyTerms.any (fun t => containsB (toLowerAscii question) t)

/-- Errors: a base Go error or a `fmt.Errorf("stage: %w", err)` wrapper. -/
inductive GoErr where
  | base : String → GoErr
  | wrap : String → GoErr → GoErr
  | msgb : GoStr → GoErr
deriving DecidableEq

instance {e a : Type} [DecidableEq e] [DecidableEq a] :
    DecidableEq (Except e a) := fun x y =>
  match x, y with
  | Except.ok v, Except.ok w =>
    if h : v = w then isTrue (by rw [h])
    else isFalse (by intro hh; cases hh; exact h rfl)
  | Except.error v, Except.error w =>
    if h : v = w then isTrue (by rw [h])
    else isFalse (by intro hh; cases hh; exact h rfl)
  | Except.ok _, Except.error _ => isFalse (by intro hh; cases hh)
  | Except.error _, Except.ok _ => isFalse (by intro hh; cases hh)

/-- An author of a PubMed article (`eutils.Author`); the affiliation field is
unused by the synthesis and qa logic and omitted. -/
structure Author where
  lastName : GoStr
  foreName : GoStr
  initials : GoStr
  collectiveName : GoStr
deriving DecidableEq, Inhabited

/-- A PubMed article (`eutils.Article`); fields unused by the synthesis and
qa logic (MeSH terms, publication types, language, abstract sections, PMCID)
are omitted. -/
structure Article where
  pmid : GoStr
  title : GoStr
  abstract : GoStr
  authors : List Author
  journal : GoStr
  volume : GoStr
  issue : GoStr
  pages : GoStr
  year : GoStr
  doi : GoStr
deriving DecidableEq, Inhabited

/-- The qa engine configuration (`qa.Config`). -/
structure QAConfig where
  confidenceThreshold : Int
  forceRetrieval : Bool
  forceParametric : Bool
  maxResults : Int
deriving DecidableEq

/-- The qa result (`qa.Result`); `strategy` is a Go string. -/
structure QAResult where
  question : GoStr
  answer : GoStr
  confidence : Int
  strategy : GoStr
  novelDetected : Bool
  sourcePMIDs : List GoStr
  minifiedContext : GoStr
deriving DecidableEq

def strategyParametric : GoStr := strBytes "parametric"

def strategyRetrieval : GoStr := strBytes "retrieval"

/-- External calls the engine can make to the literature source. -/
inductive ExtCall where
  | search : ExtCall
  | fetch : ExtCall
deriving DecidableEq

/-- The mocked environment for one `Answer` run: what each external call
would return. -/
structure QAEnv where
  confidenceReply : Except GoErr GoStr
  parametricReply : Except GoErr GoStr
  searchIDs : Except GoErr (List GoStr)
  fetchArticles : Except GoErr (List Article)
  finalReply : Except GoErr GoStr

/-- Split a byte string on a separator byte (Go `strings.Split` for a
one-byte separator). -/
def splitByte (sep : Nat) : GoStr → List GoStr
  | [] => [[]]
  | b :: rest =>
    if b == sep then [] :: splitByte sep rest
    else
      match splitByte sep rest with
      | p :: ps => (b :: p) :: ps
      | [] => [[b]]

/-- Leftmost maximal digit run (Go `regexp \d+` `FindString`), or `none`. -/
def findDigitsRun : GoStr → Option GoStr
  | [] => none
  | b :: rest =>
    if digByte b then some (b :: rest.takeWhile digByte) else findDigitsRun rest

/-- Numeric value of a digit run. -/
def natOfDigits (ds : GoStr) : Nat := ds.foldl (fun acc d => acc * 10 + (d - 48)) 0

/-- Largest Go `int` (64-bit); `fmt.Sscanf("%d")` fails above it, leaving the
default confidence untouched. -/
def maxGoInt : Nat := 2 ^ 63 - 1

/-- Confidence extracted from one lowercased line that contains both
"confidence" and ":" (the loop body of `getConfidence`). -/
def confFromLine (line : GoStr) : Int :=
  let parts := splitByte 58 line
  if 2 ≤ parts.length then
    match findDigitsRun (parts.getLastD []) with
    | some ds =>
      let v := natOfDigits ds
      if v ≤ maxGoInt then (if (v : Int) > 10 then 10 else (v : Int)) else 5
    | none => 5
  else 5

/-- Parse the confidence-check reply (the parsing part of `getConfidence`):
a yes/no lean from a "yes" substring, and a 1-10 confidence defaulting to 5,
taken from the first line containing "confidence" and ":". -/
def parseConfidenceReply (resp : GoStr) : GoStr × Int :=
  let lower := toLowerAscii resp
  let answer := if containsB lower (strBytes "yes") then strBytes "yes" else strBytes "no"
  let conf :=
    match (splitByte 10 lower).find?
        (fun line => containsB line (strBytes "confidence") && containsB line (strBytes ":")) with
    | some line => confFromLine line
    | none => 5
  (answer, conf)

/-- Parse a bare yes/no reply: "yes" iff the lowercased reply contains
"yes". -/
def yesNoAnswer (resp : GoStr) : GoStr :=
  if containsB (toLowerAscii resp) (strBytes "yes") then strBytes "yes" else strBytes "no"

/-- `MinifyAbstract` at the fixed 400-character budget of the qa engine;
the budget is non-negative, so the panic case is unreachable. -/
def minify400 (abstract : GoStr) : GoStr := (MinifyAbstract abstract 400).getD []

/-- Go `strings.Join(parts, sep)` for byte strings. -/
def joinWith (sep : GoStr) : List GoStr → GoStr
  | [] => []
  | [x] => x
  | x :: y :: xs => x ++ sep ++ joinWith sep (y :: xs)

/-- The evidence block built by `answerWithRetrieval`: one
"**title**\nminified" part per article, joined by blank lines. -/
def evidenceContext (articles : List Article) : GoStr :=
  joinWith (strBytes "\n\n")
    (articles.map fun a =>
      strBytes "**" ++ a.title ++ strBytes "**\n" ++ minify400 a.abstract)

/-- Translated from `answerParametric`: ask a bare yes/no with no evidence;
a completion error is returned unwrapped. -/
def answerParametric (env : QAEnv) (res : QAResult) :
    Except GoErr QAResult × List ExtCall :=
  match env.parametricReply with
  | Except.error e => (Except.error e, [])
  | Except.ok resp => (Except.ok { res with answer := yesNoAnswer resp }, [])

/-- Translated from `answerWithRetrieval`: expand the query, search, fall
back to a parametric answer on zero hits, otherwise fetch, build the
minified evidence context and ask a final yes/no; search, fetch and
completion errors abort with a stage-wrapped error. -/
def answerWithRetrieval (env : QAEnv) (res : QAResult) :
    Except GoErr QAResult × List ExtCall :=
  match env.searchIDs with
  | Except.error e => (Except.error (GoErr.wrap "search" e), [ExtCall.search])
  | Except.ok ids =>
    if ids = [] then
      let (r, calls) := answerParametric env res
      (r, ExtCall.search :: calls)
    else
      let res := { res with sourcePMIDs := ids }
      match env.fetchArticles with
      | Except.error e =>
        (Except.error (GoErr.wrap "fetch" e), [ExtCall.search, ExtCall.fetch])
      | Except.ok articles =>
        let res := { res with minifiedContext := evidenceContext articles }
        match env.finalReply with
        | Except.error e =>
          (Except.error (GoErr.wrap "answer" e), [ExtCall.search, ExtCall.fetch])
        | Except.ok resp =>
          (Except.ok { res with answer := yesNoAnswer resp },
            [ExtCall.search, ExtCall.fetch])

/-- Translated from `Answer`: detect novelty, decide the strategy (forced
retrieval or novelty first, then forced parametric, then the confidence
check against the threshold), and answer along the chosen path.  The second
component records the literature-source calls made. -/
def Answer (cfg : QAConfig) (env : QAEnv) (question : GoStr) :
    Except GoErr QAResult × List ExtCall :=
  let novel := DetectNovelty question
  let res : QAResult :=
    { question := question, answer := [], confidence := 0, strategy := [],
      novelDetected := novel, sourcePMIDs := [], minifiedContext := [] }
  if cfg.forceRetrieval || novel then
    answerWithRetrieval env { res with strategy := strategyRetrieval }
  else if cfg.forceParametric then
    answerParametric env { res with strategy := strategyParametric }
  else
    match env.confidenceReply with
    | Except.error e => (Except.error (GoErr.wrap "confidence check" e), [])
    | Except.ok resp =>
      let (answer, confidence) := parseConfidenceReply resp
      let res := { res with confidence := confidence }
      if confidence ≥ cfg.confidenceThreshold then
        (Except.ok { res with strategy := strategyParametric, answer := answer }, [])
      else
        answerWithRetrieval env { res with strategy := strategyRetrieval }

/-- `answerParametric` never changes the strategy already recorded. -/
theorem answerParametric_strategy (env : QAEnv) (res : QAResult) (r : QAResult)
    (h : (answerParametric env res).1 = Except.ok r) : r.strategy = res.strategy := by
  unfold answerParametric at h
  cases hp : env.parametricReply with
  | error e => simp only [hp] at h; exact Except.noConfusion h
  | ok resp =>
    simp only [hp, Except.ok.injEq] at h
    rw [← h]

/-- `answerWithRetrieval` never changes the strategy already recorded. -/
theorem answerWithRetrieval_strategy (env : QAEnv) (res : QAResult) (r : QAResult)
    (h : (answerWithRetrieval env res).1 = Except.ok r) : r.strategy = res.strategy := by
  unfold answerWithRetrieval at h
  cases hs : env.searchIDs with
  | error e => simp only [hs] at h; exact Except.noConfusion h
  | ok ids =>
    simp only [hs] at h
    by_cases hids : ids = []
    · rw [if_pos hids] at h
      rcases hap : answerParametric env res with ⟨r1, c1⟩
      rw [hap] at h
      simp only at h
      exact answerParametric_strategy env res r (by rw [hap]; exact h)
    · rw [if_neg hids] at h
      cases hf : env.fetchArticles with
      | error e => simp only [hf] at h; exact Except.noConfusion h
      | ok articles =>
        simp only [hf] at h
        cases hr : env.finalReply with
        | error e => simp only [hr] at h; exact Except.noConfusion h
        | ok resp =>
          simp only [hr, Except.ok.injEq] at h
          rw [← h]

/-- C4: the adaptive answer engine decides its strategy by, in order: forced
retrieval or a novelty hit (retrieval, regardless of confidence), forced
parametric (parametric), and otherwise the confidence check: parametric with
no search or fetch call exactly when the parsed confidence reaches the
threshold, retrieval otherwise. -/
theorem answer_strategy_decision (cfg : QAConfig) (env : QAEnv) (q : GoStr) :
    (∀ r, (cfg.forceRetrieval || DetectNovelty q) = true →
      (Answer cfg env q).1 = Except.ok r → r.strategy = strategyRetrieval) ∧
    (∀ r, (cfg.forceRetrieval || DetectNovelty q) = false →
      cfg.forceParametric = true →
      (Answer cfg env q).1 = Except.ok r → r.strategy = strategyParametric) ∧
    (∀ resp, (cfg.forceRetrieval || DetectNovelty q) = false →
      cfg.forceParametric = false →
      env.confidenceReply = Except.ok resp →
      ((parseConfidenceReply resp).2 ≥ cfg.confidenceThreshold →
        Answer cfg env q =
          (Except.ok
            { question := q, answer := (parseConfidenceReply resp).1,
              confidence := (parseConfidenceReply resp).2,
              strategy := strategyParametric, novelDetected := DetectNovelty q,
              sourcePMIDs := [], minifiedContext := [] }, [])) ∧
      ((parseConfidenceReply resp).2 < cfg.confidenceThreshold →
        ∀ r, (Answer cfg env q).1 = Except.ok r →
          r.strategy = strategyRetrieval)) := by
  refine ⟨?_, ?_, ?_⟩
  · intro r hforce h
    unfold Answer at h
    rw [if_pos hforce] at h
    exact answerWithRetrieval_strategy env _ r h
  · intro r hforce hpar h
    unfold Answer at h
    rw [if_neg (by simp [hforce]), if_pos hpar] at h
    exact answerParametric_strategy env _ r h
  · intro resp hforce hpar hconf
    unfold Answer
    rw [if_neg (by simp [hforce]), if_neg (by simp [hpar])]
    simp only [hconf]
    rcases hp : parseConfidenceReply resp with ⟨ans, conf⟩
    simp only [hp]
    constructor
    · intro hge
      rw [if_pos hge]
    · intro hlt
      rw [if_neg (by omega)]
      intro r h
      exact answerWithRetrieval_strategy env _ r h

/-- Witness for C4 at concrete inputs: a quiet question with parsed
confidence 9 against threshold 7 yields a parametric answer with no search
or fetch calls. -/
theorem answer_strategy_decision_witness :
    Answer ⟨7, false, false, 3⟩
      { confidenceReply := Except.ok (strBytes "CONFIDENCE: 9\nANSWER: yes"),
        parametricReply := Except.ok (strBytes "yes"),
        searchIDs := Except.ok [strBytes "1"],
        fetchArticles := Except.ok [],
        finalReply := Except.ok (strBytes "yes") }
      (strBytes "Does aspirin help?") =
      (Except.ok
        { question := strBytes "Does aspirin help?",
          answer := strBytes "yes", confidence := 9,
          strategy := strategyParametric, novelDetected := false,
          sourcePMIDs := [], minifiedContext := [] }, []) := by
  have h2 := ((answer_strategy_decision ⟨7, false, false, 3⟩
    { confidenceReply := Except.ok (strBytes "CONFIDENCE: 9\nANSWER: yes"),
      parametricReply := Except.ok (strBytes "yes"),
      searchIDs := Except.ok [strBytes "1"],
      fetchArticles := Except.ok [],
      finalReply := Except.ok (strBytes "yes") }
    (strBytes "Does aspirin help?")).2.2
    (strBytes "CONFIDENCE: 9\nANSWER: yes") (by decide) (by decide) rfl).1
    (by decide)
  rw [h2]
  decide

/-- C5: a successful search with zero hits falls back to a bare parametric
yes/no and the operation succeeds, while an error from the search, fetch or
completion service aborts the whole operation with that error (stage-wrapped
for search/fetch/answer, unwrapped for the fallback completion call) — a
transport failure is never converted into a fallback. -/
theorem answerWithRetrieval_spec (env : QAEnv) (res : QAResult) :
    (∀ p, env.searchIDs = Except.ok [] → env.parametricReply = Except.ok p →
      answerWithRetrieval env res =
        (Except.ok { res with answer := yesNoAnswer p }, [ExtCall.search])) ∧
    (∀ e, env.searchIDs = Except.ok [] → env.parametricReply = Except.error e →
      answerWithRetrieval env res = (Except.error e, [ExtCall.search])) ∧
    (∀ e, env.searchIDs = Except.error e →
      answerWithRetrieval env res =
        (Except.error (GoErr.wrap "search" e), [ExtCall.search])) ∧
    (∀ ids e, env.searchIDs = Except.ok ids → ids ≠ [] →
      env.fetchArticles = Except.error e →
      answerWithRetrieval env res =
        (Except.error (GoErr.wrap "fetch" e), [ExtCall.search, ExtCall.fetch])) ∧
    (∀ ids arts e, env.searchIDs = Except.ok ids → ids ≠ [] →
      env.fetchArticles = Except.ok arts → env.finalReply = Except.error e →
      answerWithRetrieval env res =
        (Except.error (GoErr.wrap "answer" e), [ExtCall.search, ExtCall.fetch])) := by
  refine ⟨?_, ?_, ?_, ?_, ?_⟩
  · intro p hs hp
    unfold answerWithRetrieval answerParametric
    simp [hs, hp]
  · intro e hs hp
    unfold answerWithRetrieval answerParametric
    simp [hs, hp]
  · intro e hs
    unfold answerWithRetrieval
    simp [hs]
  · intro ids e hs hne hf
    unfold answerWithRetrieval
    simp [hs, hne, hf]
  · intro ids arts e hs hne hf hr
    unfold answerWithRetrieval
    simp [hs, hne, hf, hr]

/-- Witness for C5: a zero-hit search falls back to a parametric yes, and a
failing search aborts with the wrapped error, at concrete environments. -/
theorem answerWithRetrieval_spec_witness :
    (answerWithRetrieval
      { confidenceReply := Except.ok [],
        parametricReply := Except.ok (strBytes "YES, clearly"),
        searchIDs := Except.ok [],
        fetchArticles := Except.ok [],
        finalReply := Except.ok [] }
      { question := strBytes "Does X help?", answer := [], confidence := 0,
        strategy := strategyRetrieval, novelDetected := false,
        sourcePMIDs := [], minifiedContext := [] } =
      (Except.ok
        { question := strBytes "Does X help?", answer := strBytes "yes",
          confidence := 0, strategy := strategyRetrieval, novelDetected := false,
          sourcePMIDs := [], minifiedContext := [] }, [ExtCall.search])) ∧
    (answerWithRetrieval
      { confidenceReply := Except.ok [],
        parametricReply := Except.ok [],
        searchIDs := Except.error (GoErr.base "boom"),
        fetchArticles := Except.ok [],
        finalReply := Except.ok [] }
      { question := [], answer := [], confidence := 0,
        strategy := strategyRetrieval, novelDetected := false,
        sourcePMIDs := [], minifiedContext := [] } =
      (Except.error (GoErr.wrap "search" (GoErr.base "boom")), [ExtCall.search])) := by
  constructor
  · have h := (answerWithRetrieval_spec
      { confidenceReply := Except.ok [],
        parametricReply := Except.ok (strBytes "YES, clearly"),
        searchIDs := Except.ok [],
        fetchArticles := Except.ok [],
        finalReply := Except.ok [] }
      { question := strBytes "Does X help?", answer := [], confidence := 0,
        strategy := strategyRetrieval, novelDetected := false,
        sourcePMIDs := [], minifiedContext := [] }).1
      (strBytes "YES, clearly") rfl rfl
    rw [h]
    decide
  · exact (answerWithRetrieval_spec _ _).2.2.1 (GoErr.base "boom") rfl

/-! The synth package: relevance scoring loop, filter/sort/truncate stage,
and reference building. -/

/-- Token estimate of one LLM call (`synth.TokenCount`). -/
structure TokenCount where
  input : Nat
  output : Nat
deriving DecidableEq, Inhabited

/-- Accumulated token usage (`synth.TokenUsage`). -/
structure TokenUsage where
  input : Nat
  output : Nat
  total : Nat
deriving DecidableEq, Inhabited

/-- A paper with its relevance score (`synth.ScoredPaper`). -/
structure ScoredPaper where
  article : Article
  relevanceScore : Nat
deriving DecidableEq, Inhabited

/-- The prompt of `scoreArticleRelevance` (its `fmt.Sprintf` template with
the question, title, and the abstract truncated to 500 runes). -/
def scorePrompt (question : GoStr) (a : Article) : GoStr :=
  strBytes "Rate how relevant this paper is to the research question.\n\nQuestion: " ++
    question ++ strBytes "\n\nPaper Title: " ++ a.title ++
    strBytes "\nAbstract: " ++ truncate a.abstract 500 ++
    strBytes "\n\nRate relevance from 1-10 where:\n1-3 = Not relevant (different topic, population, or scope)\n4-6 = Somewhat relevant (related but not directly addressing the question)\n7-9 = Highly relevant (directly addresses the question)\n10 = Perfect match (exactly what the question asks about)\n\nRespond with only the number (1-10):"

/-- Translated from `scoreArticleRelevance`, with the completion call's
outcome supplied as `reply`: a completion error propagates verbatim, a reply
is parsed with `parseScore` and the 4-chars-per-token estimate attached. -/
def scoreArticleRelevance (reply : Except GoErr GoStr) (question : GoStr)
    (a : Article) : Except GoErr (Nat × TokenCount) :=
  match reply with
  | Except.error e => Except.error e
  | Except.ok resp =>
    Except.ok (parseScore resp,
      ⟨(scorePrompt question a).length / 4, max (resp.length / 4) 1⟩)

/-- One per-paper input of the scoring loop: the article, the completion
call's outcome, and the value `ctx.Err()` would have when checked after a
failure (`none` = context alive, `some` = canceled or timed out). -/
abbrev ScoreItem := Article × Except GoErr GoStr × Option GoErr

/-- The per-item error of the scoring call, if any. -/
def errOf (question : GoStr) (x : ScoreItem) : Option GoErr :=
  match scoreArticleRelevance x.2.1 question x.1 with
  | Except.error e => some e
  | Except.ok _ => none

/-- The scored paper one loop iteration appends: the parsed score on
success, the neutral score 5 on a tolerated failure. -/
def itemScore (question : GoStr) (x : ScoreItem) : ScoredPaper :=
  match scoreArticleRelevance x.2.1 question x.1 with
  | Except.error _ => ⟨x.1, 5⟩
  | Except.ok (score, _) => ⟨x.1, score⟩

/-- The `firstErr` update of the scoring loop: keep the first error seen
(Go `if firstErr == nil { firstErr = err }`). -/
def feUpd (fe r : Option GoErr) : Option GoErr :=
  match fe with
  | some e0 => some e0
  | none => r

theorem feUpd_some (fe : Option GoErr) (e : GoErr) (r : Option GoErr) :
    feUpd (feUpd fe (some e)) r = feUpd fe (some e) := by
  cases fe <;> rfl

/-- The loop of `scoreRelevance` with its accumulators (scored list, token
totals, first error, error count); `Sum.inr` is the early return on a
canceled or timed-out context. -/
def srLoop (question : GoStr) :
    List ScoreItem → List ScoredPaper → TokenUsage → Option GoErr → Nat →
    (List ScoredPaper × TokenUsage × Option GoErr × Nat) ⊕ (TokenUsage × GoErr)
  | [], scored, tok, fe, ec => Sum.inl (scored, tok, fe, ec)
  | x :: rest, scored, tok, fe, ec =>
    match scoreArticleRelevance x.2.1 question x.1 with
    | Except.error e =>
      match x.2.2 with
      | some ce => Sum.inr (tok, ce)
      | none =>
        srLoop question rest (scored ++ [⟨x.1, 5⟩]) tok (feUpd fe (some e)) (ec + 1)
    | Except.ok (score, tc) =>
      srLoop question rest (scored ++ [⟨x.1, score⟩])
        { tok with input := tok.input + tc.input, output := tok.output + tc.output }
        fe ec

/-- Translated from `scoreRelevance`: run the loop and, when every article
in a non-empty batch failed (the exact comparison `errCount == len(articles)`),
surface an aggregate error wrapping the first underlying error. -/
def scoreRelevance (question : GoStr) (items : List ScoreItem) :
    TokenUsage × Except GoErr (List ScoredPaper) :=
  match srLoop question items [] ⟨0, 0, 0⟩ none 0 with
  | Sum.inr (tok, ce) => (tok, Except.error ce)
  | Sum.inl (scored, tok, fe, ec) =>
    if 0 < items.length ∧ ec = items.length then
      (tok, Except.error (GoErr.wrap
        ("relevance scoring failed for all " ++ toString ec ++ " articles")
        (fe.getD (GoErr.base "nil"))))
    else (tok, Except.ok scored)

/-- When no erroring iteration sees a canceled context, the scoring loop
consumes the whole batch, appending the parsed or neutral score per item and
counting the failures. -/
theorem srLoop_no_cancel (question : GoStr) :
    ∀ (items : List ScoreItem) (acc : List ScoredPaper) (tok : TokenUsage)
      (fe : Option GoErr) (ec : Nat),
      (∀ x ∈ items, (errOf question x).isSome → x.2.2 = none) →
      ∃ tok', srLoop question items acc tok fe ec =
        Sum.inl (acc ++ items.map (itemScore question), tok',
          feUpd fe (items.findSome? (errOf question)),
          ec + (items.filter (fun x => (errOf question x).isSome)).length) := by
  intro items
  induction items with
  | nil =>
    intro acc tok fe ec h
    refine ⟨tok, ?_⟩
    cases fe <;>
      simp [srLoop, feUpd]
  | cons x rest ih =>
    intro acc tok fe ec h
    rcases hsc : scoreArticleRelevance x.2.1 question x.1 with e | ⟨score, tc⟩
    · have hctx : x.2.2 = none := h x (by simp) (by simp [errOf, hsc])
      obtain ⟨tok', hrest⟩ := ih (acc ++ [⟨x.1, 5⟩]) tok (feUpd fe (some e)) (ec + 1)
        (fun y hy hye => h y (by simp [hy]) hye)
      refine ⟨tok', ?_⟩
      show srLoop question (x :: rest) acc tok fe ec = _
      rw [srLoop]
      simp only [hsc, hctx]
      rw [hrest, feUpd_some]
      have hmap : acc ++ [(⟨x.1, 5⟩ : ScoredPaper)] ++ rest.map (itemScore question) =
          acc ++ (x :: rest).map (itemScore question) := by
        simp [itemScore, hsc]
      have hfe : feUpd fe ((x :: rest).findSome? (errOf question)) =
          feUpd fe (some e) := by
        have hx : errOf question x = some e := by simp [errOf, hsc]
        rw [List.findSome?_cons, hx]
      have hct : (ec + 1) + (rest.filter (fun y => (errOf question y).isSome)).length =
          ec + ((x :: rest).filter (fun y => (errOf question y).isSome)).length := by
        have hx : (errOf question x).isSome = true := by simp [errOf, hsc]
        simp only [List.filter_cons, hx, if_true, List.length_cons]
        omega
      rw [hmap, hfe, hct]
    · obtain ⟨tok', hrest⟩ := ih (acc ++ [⟨x.1, score⟩])
        { tok with input := tok.input + tc.input, output := tok.output + tc.output }
        fe ec (fun y hy hye => h y (by simp [hy]) hye)
      refine ⟨tok', ?_⟩
      show srLoop question (x :: rest) acc tok fe ec = _
      rw [srLoop]
      simp only [hsc]
      rw [hrest]
      have hmap : acc ++ [(⟨x.1, score⟩ : ScoredPaper)] ++ rest.map (itemScore question) =
          acc ++ (x :: rest).map (itemScore question) := by
        simp [itemScore, hsc]
      have hfe : rest.findSome? (errOf question) =
          (x :: rest).findSome? (errOf question) := by
        have hx : errOf question x = none := by simp [errOf, hsc]
        rw [List.findSome?_cons, hx]
      have hct : (rest.filter (fun y => (errOf question y).isSome)).length =
          ((x :: rest).filter (fun y => (errOf question y).isSome)).length := by
        have hx : (errOf question x).isSome = false := by simp [errOf, hsc]
        simp only [List.filter_cons, hx]
        simp
      rw [hmap, hfe, hct]

/-- An erroring iteration that sees a canceled context returns that context
error immediately, regardless of what follows. -/
theorem srLoop_cancel (question : GoStr) (ce : GoErr) :
    ∀ (pre : List ScoreItem) (x : ScoreItem) (post : List ScoreItem)
      (acc : List ScoredPaper) (tok : TokenUsage) (fe : Option GoErr) (ec : Nat),
      (∀ y ∈ pre, (errOf question y).isSome → y.2.2 = none) →
      (errOf question x).isSome → x.2.2 = some ce →
      ∃ tok', srLoop question (pre ++ x :: post) acc tok fe ec = Sum.inr (tok', ce) := by
  intro pre
  induction pre with
  | nil =>
    intro x post acc tok fe ec hpre hex hctx
    rcases hsc : scoreArticleRelevance x.2.1 question x.1 with e | ⟨score, tc⟩
    · refine ⟨tok, ?_⟩
      show srLoop question (x :: post) acc tok fe ec = _
      rw [srLoop]
      simp only [hsc, hctx]
    · exact absurd hex (by simp [errOf, hsc])
  | cons y pre' ih =>
    intro x post acc tok fe ec hpre hex hctx
    rcases hsc : scoreArticleRelevance y.2.1 question y.1 with e | ⟨score, tc⟩
    · have hcy : y.2.2 = none := hpre y (by simp) (by simp [errOf, hsc])
      obtain ⟨tok', hrest⟩ := ih x post (acc ++ [⟨y.1, 5⟩]) tok
        (feUpd fe (some e)) (ec + 1)
        (fun z hz hze => hpre z (by simp [hz]) hze) hex hctx
      refine ⟨tok', ?_⟩
      show srLoop question (y :: (pre' ++ x :: post)) acc tok fe ec = _
      rw [srLoop]
      simp only [hsc, hcy]
      exact hrest
    · obtain ⟨tok', hrest⟩ := ih x post (acc ++ [⟨y.1, score⟩])
        { tok with input := tok.input + tc.input, output := tok.output + tc.output }
        fe ec (fun z hz hze => hpre z (by simp [hz]) hze) hex hctx
      refine ⟨tok', ?_⟩
      show srLoop question (y :: (pre' ++ x :: post)) acc tok fe ec = _
      rw [srLoop]
      simp only [hsc]
      exact hrest

/-- C2: in the per-paper scoring loop, a failure scores the paper 5 and the
loop continues (part 1); when every paper of a non-empty batch fails —
`errCount == len(articles)` — an aggregate error wrapping the first
underlying error is returned (part 2); a canceled or timed-out context at an
erroring call propagates immediately (part 3). -/
theorem scoreRelevance_policy (question : GoStr) :
    (∀ items : List ScoreItem,
      (∀ x ∈ items, (errOf question x).isSome → x.2.2 = none) →
      (∃ x ∈ items, errOf question x = none) →
      (scoreRelevance question items).2 =
        Except.ok (items.map (itemScore question))) ∧
    (∀ items : List ScoreItem, items ≠ [] →
      (∀ x ∈ items, (errOf question x).isSome ∧ x.2.2 = none) →
      ∃ e, items.findSome? (errOf question) = some e ∧
        (scoreRelevance question items).2 =
          Except.error (GoErr.wrap
            ("relevance scoring failed for all " ++ toString items.length ++
              " articles") e)) ∧
    (∀ (pre : List ScoreItem) (x : ScoreItem) (post : List ScoreItem) (ce : GoErr),
      (∀ y ∈ pre, (errOf question y).isSome → y.2.2 = none) →
      (errOf question x).isSome → x.2.2 = some ce →
      (scoreRelevance question (pre ++ x :: post)).2 = Except.error ce) := by
  refine ⟨?_, ?_, ?_⟩
  · intro items hnc hex
    obtain ⟨tok', h⟩ := srLoop_no_cancel question items [] ⟨0, 0, 0⟩ none 0 hnc
    unfold scoreRelevance
    simp only [h]
    rw [if_neg ?hguard]
    case hguard =>
      rintro ⟨hpos, heq⟩
      obtain ⟨x, hx, hxe⟩ := hex
      have hlt : (items.filter (fun y => (errOf question y).isSome)).length <
          items.length :=
        List.length_filter_lt_length_iff_exists.mpr ⟨x, hx, by simp [hxe]⟩
      omega
    simp
  · intro items hne hall
    obtain ⟨tok', h⟩ := srLoop_no_cancel question items [] ⟨0, 0, 0⟩ none 0
      (fun x hx _ => (hall x hx).2)
    unfold scoreRelevance
    simp only [h]
    have hcnt : (items.filter (fun y => (errOf question y).isSome)).length =
        items.length := by
      have hle := List.length_filter_le (fun y => (errOf question y).isSome) items
      have hnlt : ¬ (items.filter (fun y => (errOf question y).isSome)).length <
          items.length := by
        rw [List.length_filter_lt_length_iff_exists]
        rintro ⟨x, hx, hpx⟩
        exact hpx (hall x hx).1
      omega
    match items, hne with
    | z :: rest, _ =>
      obtain ⟨e, hze⟩ := Option.isSome_iff_exists.mp (hall z (by simp)).1
      refine ⟨e, ?_, ?_⟩
      · rw [List.findSome?_cons, hze]
      · rw [if_pos (by simp [hcnt])]
        have hfe : feUpd none ((z :: rest).findSome? (errOf question)) = some e := by
          show (z :: rest).findSome? (errOf question) = some e
          rw [List.findSome?_cons, hze]
        rw [hfe]
        have : 0 + ((z :: rest).filter (fun y => (errOf question y).isSome)).length =
            (z :: rest).length := by omega
        rw [this]
        rfl
  · intro pre x post ce hpre hex hctx
    obtain ⟨tok', h⟩ := srLoop_cancel question ce pre x post [] ⟨0, 0, 0⟩ none 0
      hpre hex hctx
    unfold scoreRelevance
    simp only [h]

/-- Concrete scoring batches for the C2 witness. -/
def c2BatchA : List ScoreItem :=
  [(default, Except.ok (strBytes "8"), none),
   (default, Except.error (GoErr.base "llm down"), none)]

def c2BatchB : List ScoreItem :=
  [(default, Except.error (GoErr.base "a"), none),
   (default, Except.error (GoErr.base "b"), none)]

def c2Pre : List ScoreItem := [(default, Except.ok (strBytes "7"), none)]

def c2Cancel : ScoreItem :=
  (default, Except.error (GoErr.base "x"), some (GoErr.base "context canceled"))

def c2Post : List ScoreItem := [(default, Except.ok (strBytes "9"), none)]

/-- Witness for C2 at concrete batches: one failure among successes scores 5
and succeeds; an all-failing batch aggregates; a canceled context aborts. -/
theorem scoreRelevance_policy_witness :
    (scoreRelevance (strBytes "q") c2BatchA).2 =
      Except.ok [⟨default, 8⟩, ⟨default, 5⟩] ∧
    (∃ e, c2BatchB.findSome? (errOf (strBytes "q")) = some e ∧
      (scoreRelevance (strBytes "q") c2BatchB).2 =
        Except.error (GoErr.wrap
          ("relevance scoring failed for all " ++ toString c2BatchB.length ++
            " articles") e)) ∧
    (scoreRelevance (strBytes "q") (c2Pre ++ c2Cancel :: c2Post)).2 =
      Except.error (GoErr.base "context canceled") := by
  refine ⟨?_, ?_, ?_⟩
  · have h := (scoreRelevance_policy (strBytes "q")).1 c2BatchA
      (by decide) (by decide)
    rw [h]
    decide
  · exact (scoreRelevance_policy (strBytes "q")).2.1 c2BatchB
      (by decide) (by decide)
  · exact (scoreRelevance_policy (strBytes "q")).2.2 c2Pre c2Cancel c2Post
      (GoErr.base "context canceled") (by decide) (by decide) (by decide)

/-- Go `Author.FullName()`: the collective name if present, else
"ForeName LastName". -/
def fullName (a : Author) : GoStr :=
  if a.collectiveName ≠ [] then a.collectiveName
  else if a.foreName = [] then a.lastName
  else a.foreName ++ [32] ++ a.lastName

/-- `lastToken`: the last whitespace-separated field of a string. -/
def lastToken (s : GoStr) : GoStr := (fieldsB s).getLastD []

/-- `normalizedYear`: trimmed year, or "n.d." when empty. -/
def normalizedYear (year : GoStr) : GoStr :=
  if trimSpace year = [] then strBytes "n.d." else trimSpace year

/-- `initials`: first rune of each fore-name field, joined by ". ". -/
def initials (foreName : GoStr) : GoStr :=
  joinWith (strBytes ". ")
    ((fieldsB foreName).map fun p =>
      match utf8Decode p with
      | [] => []
      | r :: _ => runeBytes r)

/-- `apaAuthor`: one author in APA form. -/
def apaAuthor (a : Author) : GoStr :=
  let name :=
    if trimSpace a.collectiveName ≠ [] then trimSpace a.collectiveName
    else
      let last := trimSpace a.lastName
      let fore := trimSpace a.foreName
      if last ≠ [] ∧ fore ≠ [] then last ++ strBytes ", " ++ initials fore ++ [46]
      else if last ≠ [] then last
      else if fore ≠ [] then fore
      else strBytes "Unknown"
  if name ≠ strBytes "Unknown" ∧ (name.getLast? ≠ some 46) then name ++ [46]
  else name

/-- `formatAPA`: the APA citation line of an article. -/
def formatAPA (article : Article) : GoStr :=
  let authors :=
    if article.authors.length = 0 then strBytes "Unknown"
    else if article.authors.length = 1 then apaAuthor (article.authors.getD 0 default)
    else if article.authors.length ≤ 7 then
      joinWith (strBytes ", ")
        ((List.range article.authors.length).map fun i =>
          if i = article.authors.length - 1 then
            strBytes "& " ++ apaAuthor (article.authors.getD i default)
          else apaAuthor (article.authors.getD i default))
    else
      joinWith (strBytes ", ")
        (((List.range 6).map fun i => apaAuthor (article.authors.getD i default)) ++
          [strBytes "...",
           strBytes "& " ++ apaAuthor (article.authors.getLastD default)])
  authors ++ strBytes " (" ++ normalizedYear article.year ++ strBytes "). " ++
    article.title ++ strBytes ". " ++ article.journal ++ [46] ++
    (if article.doi ≠ [] then strBytes " https://doi.org/" ++ article.doi else [])

/-- `firstAuthorKeyName`: the key name of the first author (trimmed
collective name, last name, or last token of the full name). -/
def firstAuthorKeyName (article : Article) : GoStr :=
  match article.authors with
  | [] => []
  | a :: _ =>
    if trimSpace a.collectiveName ≠ [] then trimSpace a.collectiveName
    else if trimSpace a.lastName ≠ [] then trimSpace a.lastName
    else if trimSpace (fullName a) ≠ [] then lastToken (fullName a)
    else []

/-- `inTextCiteKey`: "Name, Year" for at most one author, "Name et al.,
Year" otherwise. -/
def inTextCiteKey (article : Article) : GoStr :=
  let name := if firstAuthorKeyName article = [] then strBytes "Unknown"
    else firstAuthorKeyName article
  let year := normalizedYear article.year
  if article.authors.length ≤ 1 then name ++ strBytes ", " ++ year
  else name ++ strBytes " et al., " ++ year

/-- Modelled from the spec: `bibtexAuthorFromName` is in the BibTeX citation
file, which is not under src/ (only its tests are).  Per the spec's
"AuthorsList (ordered \"Last, First\" forms)" and the key-token tests, a
"First ... Last" full name becomes "Last, First ..."; single tokens and
already-comma-separated names pass through. -/
def bibtexAuthorFromName (name : GoStr) : GoStr :=
  if containsB name (strBytes ",") then trimSpace name
  else
    match (fieldsB name).reverse with
    | [] => []
    | [single] => single
    | last :: restRev =>
      last ++ strBytes ", " ++ joinWith [32] restRev.reverse

/-- A citation record (`synth.Reference`); the RIS blob of a `Result` is
produced by code outside src/ and is immaterial to the claims, so it is not
modelled. -/
structure Reference where
  key : GoStr
  pmid : GoStr
  citationAPA : GoStr
  relevanceScore : Nat
  doi : GoStr
  title : GoStr
  abstract : GoStr
  year : GoStr
  authors : GoStr
  authorsList : List GoStr
  journal : GoStr
deriving DecidableEq, Inhabited

/-- Translated from `buildReference`: display author string, BibTeX-friendly
author list, APA citation, and the reference key — the reference number when
there are no authors (or no key name), otherwise "Name Year". -/
def buildReference (article : Article) (num : Nat) (relevance : Nat) : Reference :=
  let authorStr :=
    if article.authors.length = 0 then strBytes "Unknown"
    else if article.authors.length = 1 then fullName (article.authors.getD 0 default)
    else if article.authors.length = 2 then
      fullName (article.authors.getD 0 default) ++ strBytes " & " ++
        fullName (article.authors.getD 1 default)
    else fullName (article.authors.getD 0 default) ++ strBytes " et al."
  let authorsList := article.authors.map fun a => bibtexAuthorFromName (fullName a)
  let apa := formatAPA article
  let key :=
    if article.authors.length ≠ 0 ∧ firstAuthorKeyName article ≠ [] then
      firstAuthorKeyName article ++ [32] ++ normalizedYear article.year
    else strBytes (toString num)
  { key := key, pmid := article.pmid, citationAPA := apa,
    relevanceScore := relevance, doi := article.doi, title := article.title,
    abstract := article.abstract, year := article.year, authors := authorStr,
    authorsList := authorsList, journal := article.journal }

/-- Synthesis configuration (`synth.Config`); all counts are Go ints. -/
structure Config where
  papersToUse : Int
  papersToSearch : Int
  relevanceThreshold : Int
  targetWords : Int
  citationStyle : GoStr
deriving DecidableEq, Inhabited

/-- `DefaultConfig`. -/
def defaultConfig : Config := ⟨5, 30, 7, 250, strBytes "apa"⟩

/-- Translated from `Config.validate`: `none` means valid. -/
def Config.validate (c : Config) : Option GoErr :=
  if c.papersToUse < 1 then some (GoErr.base "papers_to_use must be >= 1")
  else if c.papersToSearch < 1 then some (GoErr.base "papers_to_search must be >= 1")
  else if c.targetWords < 1 then some (GoErr.base "target_words must be >= 1")
  else if c.relevanceThreshold < 1 ∨ 10 < c.relevanceThreshold then
    some (GoErr.base "relevance_threshold must be 1-10")
  else none

/-- Outcomes of the external calls `Synthesize` makes, one field per call
site: the PubMed search (`none` inside `ok` models a nil result), the
metadata fetch, the per-article scoring completions (paired positionally
with the fetched articles, each with the `ctx.Err()` value its error branch
would observe), and the synthesis completion. -/
structure SynthEnv where
  search : Except GoErr (Option (List GoStr))
  fetch : Except GoErr (List Article)
  scoreReplies : List (Except GoErr GoStr × Option GoErr)
  synthesisReply : Except GoErr GoStr
deriving DecidableEq, Inhabited

/-- A synthesis result (`synth.Result`).  The RIS blob field is produced by
`GenerateRIS`, whose code is not under src/; it is independent of the claims
about `Result` and is not modelled. -/
structure Result where
  question : GoStr
  synthesis : GoStr
  papersSearched : Nat
  papersScored : Nat
  papersUsed : Nat
  references : List Reference
  tokens : TokenUsage
deriving DecidableEq, Inhabited

/-- Translated from `Synthesize` steps 4-5 (lines 446-459): keep the scored
papers meeting the threshold, sort with Go `sort.Slice` (pdqsort, not
stable) descending by score, and cut to the first `papersToUse` when
longer. -/
def filterSortTruncate (cfg : Config) (scored : List ScoredPaper) : List ScoredPaper :=
  let relevant := scored.filter fun sp => cfg.relevanceThreshold ≤ (sp.relevanceScore : Int)
  let sorted := sortSliceByKeyDesc (fun sp => sp.relevanceScore) relevant
  if cfg.papersToUse < (sorted.length : Int) then sorted.take cfg.papersToUse.toNat
  else sorted

/-- The `for i, sp := range relevant` loop of `Synthesize` step 5, building
one `Reference` per kept paper with 1-based numbering. -/
def buildRefs : Nat → List ScoredPaper → List Reference
  | _, [] => []
  | i, sp :: rest =>
    buildReference sp.article (i + 1) sp.relevanceScore :: buildRefs (i + 1) rest

/-- The per-paper context block of the synthesis prompt. -/
def synthContextPart (i : Nat) (sp : ScoredPaper) : GoStr :=
  strBytes ("[" ++ toString (i + 1) ++ "] ") ++ inTextCiteKey sp.article ++
    strBytes " (" ++ sp.article.pmid ++ strBytes ")\nTitle: " ++ sp.article.title ++
    strBytes "\nAbstract: " ++
    truncate (if sp.article.abstract = [] then strBytes "(no abstract available)"
      else sp.article.abstract) 1500 ++
    strBytes "\n"

/-- The synthesis prompt of `generateSynthesis` (its `fmt.Sprintf`
template). -/
def synthPrompt (cfg : Config) (question : GoStr) (papers : List ScoredPaper) : GoStr :=
  strBytes "You are a scientific writer. Synthesize the following research papers to answer this question:\n\nQuestion: " ++
    question ++ strBytes "\n\nPapers:\n" ++
    joinWith (strBytes "\n---\n")
      ((List.range papers.length).map fun i => synthContextPart i (papers.getD i default)) ++
    strBytes ("\n\nWrite a synthesis of approximately " ++ toString cfg.targetWords ++
      " words that:\n1. Directly addresses the question\n2. Integrates findings across papers\n3. Uses inline citations like (Smith et al., 2024)\n4. Maintains academic tone\n5. Notes any conflicting findings\n\nAvailable citations: ") ++
    joinWith (strBytes "; ") (papers.map fun sp => inTextCiteKey sp.article) ++
    strBytes "\n\nWrite the synthesis:"

/-- Translated from `generateSynthesis`, with the completion call's outcome
supplied as `reply`: guard question and papers, propagate a completion
error, reject an empty (after trimming) synthesis, and attach the
4-chars-per-token estimate. -/
def generateSynthesis (cfg : Config) (reply : Except GoErr GoStr) (question0 : GoStr)
    (papers : List ScoredPaper) : Except GoErr (GoStr × TokenUsage) :=
  let question := trimSpace question0
  if question = [] then Except.error (GoErr.base "question is required")
  else if papers.length = 0 then Except.error (GoErr.base "no papers provided")
  else
    match reply with
    | Except.error e => Except.error e
    | Except.ok synthesis0 =>
      let synthesis := trimSpace synthesis0
      if synthesis = [] then Except.error (GoErr.base "LLM returned empty synthesis")
      else Except.ok (synthesis,
        ⟨(synthPrompt cfg question papers).length / 4, synthesis.length / 4, 0⟩)

/-- Translated from `Synthesize` (the nil-engine/nil-client guards of a
constructed engine aside): validate the config, trim and require the
question, run search, fetch, relevance scoring, filter/sort/truncate,
reference building, and synthesis, wrapping each stage's error with its
stage name and assembling the `Result` on success. -/
def Synthesize (cfg : Config) (env : SynthEnv) (question0 : GoStr) : Except GoErr Result :=
  match cfg.validate with
  | some e => Except.error (GoErr.wrap "invalid config" e)
  | none =>
    let question := trimSpace question0
    if question = [] then Except.error (GoErr.base "question is required")
    else
      match env.search with
      | Except.error e => Except.error (GoErr.wrap "search" e)
      | Except.ok none => Except.error (GoErr.base "search: nil result")
      | Except.ok (some ids) =>
        if ids.length = 0 then
          Except.error (GoErr.msgb (strBytes "no papers found for query: " ++ question))
        else
          match env.fetch with
          | Except.error e => Except.error (GoErr.wrap "fetch" e)
          | Except.ok articles =>
            if articles.length = 0 then
              Except.error (GoErr.msgb
                (strBytes "fetch: no articles returned for query: " ++ question))
            else
              let items := List.zipWith (fun a r => (a, r.1, r.2))
                articles env.scoreReplies
              match scoreRelevance question items with
              | (_, Except.error e) =>
                Except.error (GoErr.wrap "relevance scoring" e)
              | (scoringTokens, Except.ok scored) =>
                let relevant := filterSortTruncate cfg scored
                if relevant.length = 0 then
                  Except.error (GoErr.msgb
                    (strBytes ("no papers met relevance threshold (" ++
                        toString cfg.relevanceThreshold ++ ") for: ") ++ question))
                else
                  match generateSynthesis cfg env.synthesisReply question relevant with
                  | Except.error e => Except.error (GoErr.wrap "synthesis" e)
                  | Except.ok (synthesis, tokens) =>
                    Except.ok
                      { question := question, synthesis := synthesis,
                        papersSearched := ids.length,
                        papersScored := scored.length,
                        papersUsed := relevant.length,
                        references := buildRefs 0 relevant,
                        tokens :=
                          ⟨scoringTokens.input + tokens.input,
                           scoringTokens.output + tokens.output,
                           scoringTokens.input + tokens.input +
                             (scoringTokens.output + tokens.output)⟩ }

theorem toDigitsCoreAux_ne_nil (b : Nat) : ∀ (f n : Nat) (ds : List Char),
    ds ≠ [] → Nat.toDigitsCore b f n ds ≠ [] := by
  intro f
  induction f with
  | zero => intro n ds h; simpa [Nat.toDigitsCore] using h
  | succ f ih =>
    intro n ds h
    rw [Nat.toDigitsCore]
    split
    · simp
    · exact ih _ _ (by simp)

theorem toDigits_ne_nil (b n : Nat) : Nat.toDigits b n ≠ [] := by
  rw [Nat.toDigits, Nat.toDigitsCore]
  split
  · simp
  · exact toDigitsCoreAux_ne_nil b _ _ _ (by simp)

theorem natStr_data_ne_nil (n : Nat) : (toString n).data ≠ [] := by
  show (Nat.toDigits 10 n).asString.data ≠ []
  rw [show ∀ l : List Char, l.asString.data = l from fun l => rfl]
  exact toDigits_ne_nil 10 n

theorem runeBytes_ne_nil (c : Nat) : runeBytes c ≠ [] := by
  unfold runeBytes utf8EncodeScalar
  split_ifs <;> simp

theorem strBytes_ne_nil_of_data (s : String) (h : s.data ≠ []) :
    strBytes s ≠ [] := by
  intro hc
  rcases hl : s.data with _ | ⟨c, cs⟩
  · exact h hl
  · rw [show strBytes s = utf8Encode (s.data.map Char.toNat) from rfl, hl] at hc
    rw [utf8Encode, List.map_cons, List.flatMap_cons] at hc
    rcases List.append_eq_nil.mp hc with ⟨h1, _⟩
    exact runeBytes_ne_nil _ h1

/-- The key built by `buildReference` is never the empty string: it is
either "Name Year" with a non-empty name, or the decimal reference
number. -/
theorem buildReference_key_ne_nil (a : Article) (num rel : Nat) :
    (buildReference a num rel).key ≠ [] := by
  show (if a.authors.length ≠ 0 ∧ firstAuthorKeyName a ≠ [] then
      firstAuthorKeyName a ++ [32] ++ normalizedYear a.year
    else strBytes (toString num)) ≠ []
  split
  · intro hc
    rcases List.append_eq_nil.mp hc with ⟨h1, _⟩
    rcases List.append_eq_nil.mp h1 with ⟨_, h3⟩
    exact List.cons_ne_nil _ _ h3
  · exact strBytes_ne_nil_of_data _ (natStr_data_ne_nil num)

theorem buildRefs_key_ne_nil (i : Nat) (l : List ScoredPaper) :
    ∀ ref ∈ buildRefs i l, ref.key ≠ [] := by
  induction l generalizing i with
  | nil => intro ref h; simp [buildRefs] at h
  | cons sp rest ih =>
    intro ref h
    rw [buildRefs] at h
    rcases List.mem_cons.mp h with h1 | h2
    · rw [h1]; exact buildReference_key_ne_nil _ _ _
    · exact ih (i + 1) ref h2

/-- C3 counterexample: a successful synthesis over two papers whose first
authors share the last name "Smith" and the year 2024 returns a Result whose
two Reference keys are both "Smith 2024" — non-empty but not pairwise
distinct. -/
def c3Article1 : Article :=
  { pmid := strBytes "111", title := strBytes "Aspirin and stroke",
    abstract := strBytes "A.",
    authors := [⟨strBytes "Smith", strBytes "John", [], []⟩],
    journal := strBytes "J", volume := [], issue := [], pages := [],
    year := strBytes "2024", doi := [] }

/-- Second paper of the C3 counterexample: a different author who also has
last name "Smith", same year. -/
def c3Article2 : Article :=
  { pmid := strBytes "222", title := strBytes "Aspirin again",
    abstract := strBytes "B.",
    authors := [⟨strBytes "Smith", strBytes "Jane", [], []⟩],
    journal := strBytes "J", volume := [], issue := [], pages := [],
    year := strBytes "2024", doi := [] }

/-- External-call outcomes of the C3 counterexample: both papers found,
fetched, scored 9 and 8 over threshold 7, synthesis succeeds. -/
def c3Env : SynthEnv :=
  { search := Except.ok (some [strBytes "111", strBytes "222"]),
    fetch := Except.ok [c3Article1, c3Article2],
    scoreReplies := [(Except.ok (strBytes "9"), none),
                     (Except.ok (strBytes "8"), none)],
    synthesisReply := Except.ok (strBytes "Both agree.") }

/-- Question of the C3 counterexample. -/
def c3Question : GoStr := strBytes "Does aspirin prevent stroke?"

/-- The Result of the C3 counterexample run (total by construction; the run
is proven successful below). -/
def c3Result : Result :=
  ((Synthesize defaultConfig c3Env c3Question).toOption).getD default

/-- C3: counterexample to "the keys of the References are pairwise distinct
within that Result".  With the default configuration, two fetched papers
whose first authors share the last name and year, and passing scores, the
pipeline succeeds and returns the reference keys ["Smith 2024",
"Smith 2024"], which are not pairwise distinct. -/
theorem synthesize_duplicate_keys :
    (Synthesize defaultConfig c3Env c3Question).map
        (fun r => r.references.map fun ref => ref.key) =
      Except.ok [strBytes "Smith 2024", strBytes "Smith 2024"] ∧
    (Synthesize defaultConfig c3Env c3Question).map
        (fun r => decide (List.Nodup (r.references.map fun ref => ref.key))) =
      Except.ok false := by
  constructor
  · decide
  · decide

/-- C3 (amended): in every Result returned successfully by the synthesis
pipeline, every Reference has a non-empty key — each key is either
"Name Year" with a non-empty first-author key name or the positive decimal
reference number; pairwise distinctness does not hold in general. -/
theorem synthesize_keys_nonempty (cfg : Config) (env : SynthEnv) (q : GoStr)
    (r : Result) (h : Synthesize cfg env q = Except.ok r) :
    ∀ ref ∈ r.references, ref.key ≠ [] := by
  intro ref href
  simp only [Synthesize] at h
  split at h
  · exact Except.noConfusion h
  · split at h
    · exact Except.noConfusion h
    · split at h
      · exact Except.noConfusion h
      · exact Except.noConfusion h
      · split at h
        · exact Except.noConfusion h
        · split at h
          · exact Except.noConfusion h
          · split at h
            · exact Except.noConfusion h
            · split at h
              · exact Except.noConfusion h
              · split at h
                · exact Except.noConfusion h
                · split at h
                  · exact Except.noConfusion h
                  · injection h with h
                    subst h
                    exact buildRefs_key_ne_nil 0 _ ref href

/-- Witness for C3's amended theorem, at the counterexample run: the first
reference key of the successful duplicate-key Result is non-empty. -/
theorem synthesize_keys_nonempty_witness :
    (c3Result.references.getD 0 default).key ≠ [] :=
  synthesize_keys_nonempty defaultConfig c3Env c3Question c3Result (by decide)
    (c3Result.references.getD 0 default) (by decide)

/-! BibTeX citation keys.  The implementation file of the BibTeX writer is
not under src/ (only its tests are), so the definitions below are modelled
from the spec and checked against the expectations recorded in the tests. -/

/-- Modelled from the spec: the bijective base-26 collision suffix (fuel-
indexed worker; `97` is `'a'`).  Collision ordinal `n-1` maps to digits with
no zero: `suffix(n) = suffix((n-1)/26) + ('a' + (n-1)%26)` and
`suffix(0) = ""`. -/
def alphaSuffixAux : Nat → Nat → GoStr
  | 0, _ => []
  | fuel + 1, n =>
    if n = 0 then []
    else alphaSuffixAux fuel ((n - 1) / 26) ++ [97 + (n - 1) % 26]

/-- Modelled from the spec: `alphaSuffix` — the collision suffix for the
`n`-th reference sharing a base key (0 = no suffix). -/
def alphaSuffix (n : Nat) : GoStr := alphaSuffixAux (n + 1) n

/-- Modelled from the spec: Go `strings.HasSuffix` over bytes. -/
def endsWithB (s p : GoStr) : Bool := startsWithB s.reverse p.reverse

/-- Modelled from the spec: Go `strings.TrimSuffix` over bytes. -/
def trimSuffixB (s p : GoStr) : GoStr :=
  if endsWithB s p then s.take (s.length - p.length) else s

/-- Modelled from the spec: the first-author surname token of a display
author string (`FirstAuthorSurnameToken`): empty after trimming gives
"Unknown"; a comma-separated "Last, First" form gives the part before the
comma; otherwise an " et al." marker is dropped and the last
whitespace-separated field is the surname. -/
def bibtexKeyAuthorToken (s0 : GoStr) : GoStr :=
  let s := trimSpace s0
  if s = [] then strBytes "Unknown"
  else if containsB s [44] then trimSpace (s.takeWhile (fun b => b ≠ 44))
  else
    let t := lastToken (trimSuffixB s (strBytes " et al."))
    if t = [] then strBytes "Unknown" else t

/-- Modelled from the spec: the first run of four consecutive ASCII digits
of a string, if any. -/
def findYear4 : GoStr → Option GoStr
  | [] => none
  | b0 :: rest =>
    match rest with
    | b1 :: b2 :: b3 :: _ =>
      if digByte b0 && digByte b1 && digByte b2 && digByte b3 then
        some [b0, b1, b2, b3]
      else findYear4 rest
    | _ => none

/-- Modelled from the spec: `yearForBibTeXKey` — the year digits of the
year field (`YearDigitsOr"nd"`): the first four-digit run, or "nd". -/
def yearForBibTeXKey (year : GoStr) : GoStr :=
  match findYear4 year with
  | some ds => ds
  | none => strBytes "nd"

/-- Modelled from the spec: an ASCII alphanumeric byte. -/
def alnumByte (b : Nat) : Bool :=
  (48 ≤ b && b ≤ 57) || (65 ≤ b && b ≤ 90) || (97 ≤ b && b ≤ 122)

/-- Modelled from the spec: `sanitizeBibTeXKey` — strip all non-alphanumeric
bytes, prefix a leading digit with "Ref", cap at 64 bytes. -/
def sanitizeBibTeXKey (s : GoStr) : GoStr :=
  let kept := s.filter alnumByte
  let pre :=
    match kept with
    | [] => []
    | b :: _ => if digByte b then strBytes "Ref" ++ kept else kept
  pre.take 64

/-- Modelled from the spec: `bibtexCitationKeyBase` — the sanitized
`{FirstAuthorSurnameToken}{YearDigitsOr"nd"}` base key; the first entry of
AuthorsList takes precedence over the display Authors string. -/
def bibtexCitationKeyBase (ref : Reference) : GoStr :=
  let first :=
    match ref.authorsList with
    | a :: _ => a
    | [] => ref.authors
  sanitizeBibTeXKey (bibtexKeyAuthorToken first ++ yearForBibTeXKey ref.year)

/-- Modelled from the spec: the per-base collision count lookup of the key
generator (0 when the base has not been seen). -/
def lookupCount : List (GoStr × Nat) → GoStr → Nat
  | [], _ => 0
  | (k, v) :: rest, b => if k = b then v else lookupCount rest b

/-- Modelled from the spec: record one more occurrence of a base key. -/
def bumpCount : List (GoStr × Nat) → GoStr → List (GoStr × Nat)
  | [], b => [(b, 1)]
  | (k, v) :: rest, b =>
    if k = b then (k, v + 1) :: rest else (k, v) :: bumpCount rest b

/-- Modelled from the spec: the key-generation loop — each reference gets
its base key plus the alpha suffix of the number of earlier references with
the same base. -/
def genKeysAux : List Reference → List (GoStr × Nat) → List GoStr
  | [], _ => []
  | ref :: rest, seen =>
    let base := bibtexCitationKeyBase ref
    (base ++ alphaSuffix (lookupCount seen base)) :: genKeysAux rest (bumpCount seen base)

/-- Modelled from the spec: `generateBibTeXCitationKeys` — collision-
resolved BibTeX keys of a reference list, in input order. -/
def generateBibTeXCitationKeys (refs : List Reference) : List GoStr :=
  genKeysAux refs []

theorem alphaSuffixAux_fuel : ∀ (f1 f2 n : Nat), n ≤ f1 → n ≤ f2 →
    alphaSuffixAux f1 n = alphaSuffixAux f2 n := by
  intro f1
  induction f1 with
  | zero =>
    intro f2 n h1 _
    have hn : n = 0 := Nat.le_zero.mp h1
    subst hn
    cases f2 <;> simp [alphaSuffixAux]
  | succ f1 ih =>
    intro f2 n h1 h2
    cases f2 with
    | zero =>
      have hn : n = 0 := Nat.le_zero.mp h2
      subst hn
      simp [alphaSuffixAux]
    | succ g =>
      rw [alphaSuffixAux, alphaSuffixAux]
      split
      · rfl
      · rename_i hn
        rw [ih g ((n - 1) / 26)
          (le_trans (Nat.div_le_self _ _) (by omega))
          (le_trans (Nat.div_le_self _ _) (by omega))]

theorem alphaSuffix_eq (n : Nat) :
    alphaSuffix n =
      if n = 0 then [] else alphaSuffix ((n - 1) / 26) ++ [97 + (n - 1) % 26] := by
  show alphaSuffixAux (n + 1) n = _
  rw [alphaSuffixAux]
  split
  · rfl
  · rw [alphaSuffixAux_fuel n ((n - 1) / 26 + 1) ((n - 1) / 26)
      (le_trans (Nat.div_le_self _ _) (by omega)) (Nat.le_succ _)]
    rfl

/-- Worker of the decoding inverse of `alphaSuffix`, over the reversed
digit string. -/
def alphaValRev : List Nat → Nat
  | [] => 0
  | c :: rest => alphaValRev rest * 26 + (c - 97 + 1)

/-- Decoding inverse of `alphaSuffix`: bijective base-26 value of a suffix
string. -/
def alphaVal (s : GoStr) : Nat := alphaValRev s.reverse

theorem alphaVal_append_one (s : GoStr) (c : Nat) :
    alphaVal (s ++ [c]) = alphaVal s * 26 + (c - 97 + 1) := by
  unfold alphaVal
  rw [List.reverse_append]
  rfl

theorem alphaVal_alphaSuffix : ∀ n, alphaVal (alphaSuffix n) = n := by
  intro n
  induction n using Nat.strong_induction_on with
  | _ n ih =>
    rw [alphaSuffix_eq]
    split
    · rename_i hn
      rw [hn]
      rfl
    · rename_i hn
      rw [alphaVal_append_one, ih ((n - 1) / 26)
        (lt_of_le_of_lt (Nat.div_le_self _ _) (by omega))]
      have hm : 97 + (n - 1) % 26 - 97 + 1 = (n - 1) % 26 + 1 := by omega
      rw [hm]
      have hdm := Nat.div_add_mod (n - 1) 26
      omega

theorem alphaSuffix_injective : Function.Injective alphaSuffix :=
  Function.LeftInverse.injective alphaVal_alphaSuffix

theorem lookupCount_bump_self (seen : List (GoStr × Nat)) (b : GoStr) :
    lookupCount (bumpCount seen b) b = lookupCount seen b + 1 := by
  induction seen with
  | nil => simp [bumpCount, lookupCount]
  | cons kv rest ih =>
    rcases kv with ⟨k, v⟩
    rw [bumpCount]
    by_cases hk : k = b
    · rw [if_pos hk, lookupCount, if_pos hk, lookupCount, if_pos hk]
    · rw [if_neg hk, lookupCount, if_neg hk, lookupCount, if_neg hk, ih]

theorem genKeys_same_base (base : GoStr) :
    ∀ (refs : List Reference) (seen : List (GoStr × Nat)),
      (∀ ref ∈ refs, bibtexCitationKeyBase ref = base) →
      genKeysAux refs seen =
        (List.range refs.length).map
          (fun i => base ++ alphaSuffix (lookupCount seen base + i)) := by
  intro refs
  induction refs with
  | nil => intro seen _; simp [genKeysAux]
  | cons ref rest ih =>
    intro seen h
    have hb : bibtexCitationKeyBase ref = base := h ref (by simp)
    simp only [genKeysAux, hb]
    rw [ih (bumpCount seen base) (fun r hr => h r (by simp [hr])),
      lookupCount_bump_self, List.length_cons, List.range_succ_eq_map,
      List.map_cons, List.map_map]
    have hf : ((fun i => base ++ alphaSuffix (lookupCount seen base + i)) ∘ Nat.succ) =
        fun i => base ++ alphaSuffix (lookupCount seen base + 1 + i) := by
      funext i
      show base ++ alphaSuffix (lookupCount seen base + (i + 1)) = _
      rw [show lookupCount seen base + (i + 1) = lookupCount seen base + 1 + i from by omega]
    rw [hf]
    simp

/-- C8: for a list of references that all produce the same base citation
key, BibTeX key generation returns the keys base, base+"a", base+"b", ... in
input order, pairwise distinct; and the alpha suffix takes the documented
bijective base-26 values at 0, 1, 26, 27 and 53. -/
theorem bibtex_keys_same_base (refs : List Reference) (base : GoStr)
    (h : ∀ ref ∈ refs, bibtexCitationKeyBase ref = base) :
    generateBibTeXCitationKeys refs =
      (List.range refs.length).map (fun i => base ++ alphaSuffix i) ∧
    (generateBibTeXCitationKeys refs).Nodup ∧
    alphaSuffix 0 = [] ∧ alphaSuffix 1 = strBytes "a" ∧
    alphaSuffix 26 = strBytes "z" ∧ alphaSuffix 27 = strBytes "aa" ∧
    alphaSuffix 53 = strBytes "ba" := by
  have hmain := genKeys_same_base base refs [] h
  have hz : lookupCount [] base = 0 := rfl
  rw [hz] at hmain
  simp only [Nat.zero_add] at hmain
  have hkeys : generateBibTeXCitationKeys refs =
      (List.range refs.length).map (fun i => base ++ alphaSuffix i) := hmain
  refine ⟨hkeys, ?_, by decide, by decide, by decide, by decide, by decide⟩
  rw [hkeys]
  exact List.Nodup.map
    (fun a b hab => alphaSuffix_injective (List.append_cancel_left hab))
    (List.nodup_range _)

/-- References of the C8 witness: three distinct authors who all sanitize
to the base key "Smith2024". -/
def c8Refs : List Reference :=
  [{ (default : Reference) with authors := strBytes "Smith, John", year := strBytes "2024" },
   { (default : Reference) with authors := strBytes "Smith, Jane", year := strBytes "2024" },
   { (default : Reference) with authors := strBytes "Smith, Bob", year := strBytes "2024" }]

/-- Witness for C8 at three same-base references: keys are Smith2024,
Smith2024a, Smith2024b, pairwise distinct, with the concrete suffix
values. -/
theorem bibtex_keys_same_base_witness :
    generateBibTeXCitationKeys c8Refs =
      (List.range c8Refs.length).map (fun i => strBytes "Smith2024" ++ alphaSuffix i) ∧
    (generateBibTeXCitationKeys c8Refs).Nodup ∧
    alphaSuffix 0 = [] ∧ alphaSuffix 1 = strBytes "a" ∧
    alphaSuffix 26 = strBytes "z" ∧ alphaSuffix 27 = strBytes "aa" ∧
    alphaSuffix 53 = strBytes "ba" :=
  bibtex_keys_same_base c8Refs (strBytes "Smith2024") (by decide)

/-! The filter/sort/truncate stage of `Synthesize` against the spec's
description of it.  `filterSortTruncate` above is the code's stage
(`sort.Slice`, Go's pdqsort); the definitions below follow the spec's words
("sort descending by score (stable — original fetch order is the
tie-break)") for comparison. -/

/-- Stated from the spec's words: stable descending insertion — a paper is
placed after every already-placed paper with a score at least as high, so
equal scores keep their original relative order. -/
def insDesc (x : ScoredPaper) : List ScoredPaper → List ScoredPaper
  | [] => [x]
  | y :: ys =>
    if y.relevanceScore < x.relevanceScore then x :: y :: ys
    else y :: insDesc x ys

/-- Stated from the spec's words: the stable descending sort, inserting the
papers in fetch order. -/
def stableSortDesc (l : List ScoredPaper) : List ScoredPaper :=
  l.foldl (fun acc x => insDesc x acc) []

/-- Stated from the spec's words: the claimed stage — filter by threshold,
sort descending by score with the stable tie-break, truncate to
`papersToUse`. -/
def claimedFilterSortTruncate (cfg : Config) (scored : List ScoredPaper) :
    List ScoredPaper :=
  let relevant := scored.filter fun sp => cfg.relevanceThreshold ≤ (sp.relevanceScore : Int)
  let sorted := stableSortDesc relevant
  if cfg.papersToUse < (sorted.length : Int) then sorted.take cfg.papersToUse.toNat
  else sorted

/-- A scored paper of the C1 failing input, tagged by its fetch position
through the PMID. -/
def c1Paper (i score : Nat) : ScoredPaper :=
  ⟨{ (default : Article) with pmid := strBytes (toString i) }, score⟩

/-- The C1 failing input: thirteen papers, fetch order 0..12, scores
7,7,8,8,9,9,7,7,8,8,9,9,7 — all at or above the default threshold 7. -/
def c1Input : List ScoredPaper :=
  [c1Paper 0 7, c1Paper 1 7, c1Paper 2 8, c1Paper 3 8, c1Paper 4 9, c1Paper 5 9,
   c1Paper 6 7, c1Paper 7 7, c1Paper 8 8, c1Paper 9 8, c1Paper 10 9, c1Paper 11 9,
   c1Paper 12 7]

/-- C1: the code's filter/sort/truncate stage is NOT stable on ties.  Under
the valid default configuration (threshold 7, papersToUse 5), the code keeps
the 9-scored papers in fetch order 4,11,10,5 (not 4,5,10,11) and then
truncation selects the 8-scored paper fetched 9th where the claimed stable
stage selects the one fetched 2nd — a different set of used papers, not just
a different order.  The two full sorts contain the same papers with
identical descending score sequences; only the tie order differs, which is
exactly the stability the claim asserts. -/
theorem filterSortTruncate_not_stable :
    Config.validate defaultConfig = none ∧
    filterSortTruncate defaultConfig c1Input =
      [c1Paper 4 9, c1Paper 11 9, c1Paper 10 9, c1Paper 5 9, c1Paper 9 8] ∧
    claimedFilterSortTruncate defaultConfig c1Input =
      [c1Paper 4 9, c1Paper 5 9, c1Paper 10 9, c1Paper 11 9, c1Paper 2 8] ∧
    filterSortTruncate defaultConfig c1Input ≠
      claimedFilterSortTruncate defaultConfig c1Input ∧
    (sortSliceByKeyDesc (fun sp => sp.relevanceScore) c1Input).map
        (fun sp => sp.relevanceScore) =
      (stableSortDesc c1Input).map (fun sp => sp.relevanceScore) ∧
    List.Perm (sortSliceByKeyDesc (fun sp => sp.relevanceScore) c1Input)
      (stableSortDesc c1Input) ∧
    sortSliceByKeyDesc (fun sp => sp.relevanceScore) c1Input ≠
      stableSortDesc c1Input :=
  ⟨by decide, by decide, by decide, by decide, by decide, by decide, by decide⟩

end PubmedCLI
